import Mathlib

/-!
# Verification of `internal/logging/logging.go`

A shallow embedding of the gRPC interceptors of the `logging` package
(`UnaryServerCtxIDInterceptor`, `UnaryClientCtxIDInterceptor`,
`clientLoggerFields`, `levelLogf`) and of the library functions they call,
followed by the theorems that settle the claims made about them.

Conventions of the embedding:

* a Go `string` that the code slices or scans (`fullMethodString`) is a list of
  bytes, `GoString`; each byte is a natural number below 256.  Texts that are
  only carried around (map keys, log formats, error messages) are Lean strings;
* a Go runtime panic inside a pure function is the result `none`; an interceptor
  ends with an `Outcome`: it returns, it panics, or the process exits;
* the functions of other packages are embedded from their own sources: `path`
  of the Go standard library (`Clean`, with its `lazybuf`, `Split`, `Dir`,
  `Base`), `errors.Wrap` of `github.com/pkg/errors`, `DefaultCodeToLevel` of
  go-grpc-middleware, `codes.Code.String` of grpc-go, the levels of logrus;
* what depends on the state of the program is a parameter: the clock,
  `uuid.NewV4`, `ctxlogrus.AddFields`, `DefaultErrorToCode`, the invoker, the
  handler and the method `GetContextId` of a reply.  They act on a state of any
  type `σ`, and each of them is taken to return (none of them panics);
* the calls that leave the package (to the invoker, to the handler, to
  `AddFields`, to a logging method of a logrus entry) are recorded, in order, in
  a trace.  A logging method emits its record only when the level of the logger
  admits it, as in logrus; the records emitted are in the trace as well.
-/

set_option autoImplicit false
set_option linter.unusedVariables false

namespace Logging

/-! ## Go strings -/

/-- Go `string` / `[]byte`: a sequence of bytes. -/
abbrev GoString := List Nat

/-- The byte `'/'`. -/
abbrev slash : Nat := 47

/-- The byte `'.'`. -/
abbrev dot : Nat := 46

/-- The bytes of an ASCII string literal. -/
def lit (s : String) : GoString := s.toList.map Char.toNat

/-! ## Package `path` of the Go standard library -/

/-- Type `lazybuf` of package `path`: the output of `Clean`, which stays a slice
`s[:w]` of the input until a byte is written that differs from the input. -/
structure lazybuf where
  s : GoString
  buf : Option (List Nat)
  w : Nat
deriving DecidableEq, Repr

/-- Method `lazybuf.index`: `b.buf[i]` when the buffer is allocated, else `b.s[i]`;
`none` is an index out of range. -/
def lazybuf.index (b : lazybuf) (i : Nat) : Option Nat :=
  match b.buf with
  | some buf => buf[i]?
  | none => b.s[i]?

/-- Method `lazybuf.append`: while no buffer is allocated and the byte equals
`b.s[b.w]` only `w` advances; otherwise the buffer is allocated as
`make([]byte, len(b.s))` with `b.s[:b.w]` copied in, and the byte is stored
at `b.buf[b.w]`.  `none` is an index out of range. -/
def lazybuf.append (b : lazybuf) (c : Nat) : Option lazybuf :=
  match b.buf with
  | none =>
    if b.w < b.s.length ∧ b.s[b.w]? = some c then
      some { b with w := b.w + 1 }
    else if b.w ≤ b.s.length then
      let buf := b.s.take b.w ++ List.replicate (b.s.length - b.w) 0
      if b.w < buf.length then
        some { b with buf := some (buf.set b.w c), w := b.w + 1 }
      else none
    else none
  | some buf =>
    if b.w < buf.length then
      some { b with buf := some (buf.set b.w c), w := b.w + 1 }
    else none

/-- Method `lazybuf.string`: `b.s[:b.w]` or `string(b.buf[:b.w])`. -/
def lazybuf.string (b : lazybuf) : Option GoString :=
  match b.buf with
  | none => if b.w ≤ b.s.length then some (b.s.take b.w) else none
  | some buf => if b.w ≤ buf.length then some (buf.take b.w) else none

/-- The loop variables of `path.Clean`. -/
structure CleanState where
  out : lazybuf
  r : Nat
  dotdot : Nat
deriving DecidableEq, Repr

/-- The loop `for out.w > dotdot && out.index(out.w) != '/' { out.w-- }` of the
`..` case of `Clean`, as a function of the current `out.w`; it returns the
final `out.w`. -/
def backtrack (b : lazybuf) (dotdot : Nat) : Nat → Option Nat
  | 0 => some 0
  | w + 1 =>
    if w + 1 > dotdot then
      match b.index (w + 1) with
      | none => none
      | some c => if c ≠ slash then backtrack b dotdot w else some (w + 1)
    else some (w + 1)

/-- The loop `for ; r < n && path[r] != '/'; r++ { out.append(path[r]) }` of
`Clean`; `rest` is `path[r:]`. -/
def copyElem : (rest : GoString) → lazybuf → Nat → Option (lazybuf × Nat)
  | [], out, r => some (out, r)
  | c :: rest, out, r =>
    if c ≠ slash then
      match out.append c with
      | none => none
      | some out1 => copyElem rest out1 (r + 1)
    else some (out, r)

/-- One iteration of the main loop of `path.Clean`, entered with `r < n`. -/
def cleanStep (path : GoString) (rooted : Bool) (st : CleanState) : Option CleanState :=
  let n := path.length
  let r := st.r
  match path[r]? with
  | none => none
  | some c =>
    if c = slash then
      -- empty path element
      some { st with r := r + 1 }
    else if c = dot ∧ (r + 1 = n ∨ path[r + 1]? = some slash) then
      -- . element
      some { st with r := r + 1 }
    else if c = dot ∧ path[r + 1]? = some dot ∧ (r + 2 = n ∨ path[r + 2]? = some slash) then
      -- .. element: remove to last /
      if st.out.w > st.dotdot then
        -- can backtrack
        match backtrack st.out st.dotdot (st.out.w - 1) with
        | none => none
        | some w1 => some { st with out := { st.out with w := w1 }, r := r + 2 }
      else if !rooted then
        -- cannot backtrack, but not rooted, so append .. element
        match (if st.out.w > 0 then st.out.append slash else some st.out) with
        | none => none
        | some o1 =>
          match o1.append dot with
          | none => none
          | some o2 =>
            match o2.append dot with
            | none => none
            | some o3 => some { out := o3, r := r + 2, dotdot := o3.w }
      else some { st with r := r + 2 }
    else
      -- real path element: add slash if needed, then copy the element
      match (if (rooted ∧ st.out.w ≠ 1) ∨ (!rooted ∧ st.out.w ≠ 0) then st.out.append slash
             else some st.out) with
      | none => none
      | some o1 =>
        match copyElem (path.drop r) o1 r with
        | none => none
        | some (o2, r2) => some { st with out := o2, r := r2 }

/-- The main loop `for r < n { ... }` of `path.Clean`.  Every iteration advances
`r`, so `n` iterations always suffice; `none` when the fuel runs out first. -/
def cleanLoop (path : GoString) (rooted : Bool) : Nat → CleanState → Option CleanState
  | 0, st => if st.r < path.length then none else some st
  | fuel + 1, st =>
    if st.r < path.length then
      match cleanStep path rooted st with
      | none => none
      | some st1 => cleanLoop path rooted fuel st1
    else some st

/-- Function `path.Clean`: the shortest path name equivalent to `path`. -/
def Clean (path : GoString) : Option GoString :=
  if path = [] then some [dot]
  else
    let rooted : Bool := path[0]? = some slash
    let n := path.length
    let out : lazybuf := { s := path, buf := none, w := 0 }
    match (if rooted then (out.append slash).map (fun o => CleanState.mk o 1 1)
           else some (CleanState.mk out 0 0)) with
    | none => none
    | some st0 =>
      match cleanLoop path rooted n st0 with
      | none => none
      | some st =>
        -- Turn empty string into "."
        if st.out.w = 0 then some [dot] else st.out.string

/-- Function `bytealg.LastIndexByteString`: the index of the last `c` in `s`, or -1.
The recursion is on `i + 1` for the loop `for i := len(s) - 1; i >= 0; i--`. -/
def LastIndexByteString.go (s : GoString) (c : Nat) : Nat → Int
  | 0 => -1
  | i + 1 => if s[i]? = some c then (i : Int) else LastIndexByteString.go s c i

/-- Function `bytealg.LastIndexByteString`. -/
def LastIndexByteString (s : GoString) (c : Nat) : Int :=
  LastIndexByteString.go s c s.length

/-- Function `path.Split`: `path[:i+1], path[i+1:]` for `i` the last slash. -/
def Split (path : GoString) : GoString × GoString :=
  let i := LastIndexByteString path slash
  (path.take (i + 1).toNat, path.drop (i + 1).toNat)

/-- Function `path.Dir`: `Clean` of the directory part of `Split`. -/
def Dir (path : GoString) : Option GoString :=
  Clean (Split path).1

/-- The loop `for len(path) > 0 && path[len(path)-1] == '/' { path = path[0 : len(path)-1] }`
of `path.Base`; the fuel is `len(path)`. -/
def stripTrailingSlashes : Nat → GoString → GoString
  | 0, path => path
  | fuel + 1, path =>
    if 0 < path.length ∧ path[path.length - 1]? = some slash then
      stripTrailingSlashes fuel (path.take (path.length - 1))
    else path

/-- Function `path.Base`: the last element of `path`. -/
def Base (path : GoString) : GoString :=
  if path = [] then [dot]
  else
    -- Strip trailing slashes.
    let path1 := stripTrailingSlashes path.length path
    -- Find the last element
    let i := LastIndexByteString path1 slash
    let path2 := if i ≥ 0 then path1.drop (i + 1).toNat else path1
    -- If empty now, it had only slashes.
    if path2 = [] then [slash] else path2

/-! ## Values, errors, contexts and log fields -/

/-- Type `uuid.UUID`, a `[16]byte`: its sixteen bytes. -/
abbrev UUID := List Nat

/-- A Go `error` value.  `leaf` is an error that comes from outside this package,
known by its identity and its `Error()` text; the other two are the wrappers
that `errors.Wrap` of `github.com/pkg/errors` builds. -/
inductive GoError where
  | leaf (id : Nat) (msg : String)
  | withMessage (cause : GoError) (msg : String)
  | withStack (err : GoError)
deriving DecidableEq, Repr

/-- Method `Error()`: `withMessage` prints `msg + ": " + cause.Error()`, and
`withStack` prints the error it embeds. -/
def GoError.Error : GoError → String
  | .leaf _ msg => msg
  | .withMessage cause msg => msg ++ ": " ++ cause.Error
  | .withStack err => err.Error

/-- Method `Cause()` of the two wrappers; `none` for an error without that method. -/
def GoError.Cause : GoError → Option GoError
  | .leaf _ _ => none
  | .withMessage cause _ => some cause
  | .withStack err => some err

/-- Function `errors.Cause`: follows `Cause()` down to the first error without it. -/
def errorsCause : GoError → GoError
  | .leaf id msg => .leaf id msg
  | .withMessage cause _ => errorsCause cause
  | .withStack err => errorsCause err

/-- Function `errors.Wrap`: `nil` for a `nil` error, otherwise
`&withStack{&withMessage{cause: err, msg: message}, callers()}`. -/
def Wrap (err : Option GoError) (message : String) : Option GoError :=
  match err with
  | none => none
  | some e => some (.withStack (.withMessage e message))

/-- A Go value stored in an `interface{}`: the kinds of value this package puts
into log fields and contexts, and `obj` for any other value, by identity. -/
inductive Value where
  | str (s : GoString)
  | duration (ns : Int)
  | uuid (u : UUID)
  | error (e : GoError)
  | obj (ref : Nat)
deriving DecidableEq, Repr

/-- A context key: Go compares keys by dynamic type and by value. -/
structure CtxKey where
  typ : String
  val : String
deriving DecidableEq, Repr

/-- Constant `ContextIDKey ContextKey = "ctx_id"`. -/
def ContextIDKey : CtxKey := { typ := "logging.ContextKey", val := "ctx_id" }

/-- Type `context.Context`, as far as `Value` can tell contexts apart. -/
inductive Context where
  | background
  | withValue (parent : Context) (key : CtxKey) (val : Value)
deriving DecidableEq, Repr

/-- Method `Context.Value`: the nearest value stored under `key`. -/
def Context.Value : Context → CtxKey → Option Value
  | .background, _ => none
  | .withValue parent k v, key => if k = key then some v else parent.Value key

/-- Type `logrus.Fields`, a `map[string]interface{}`: an association list with
at most one entry for a key. -/
abbrev Fields := List (String × Value)

/-- Map assignment `fields[k] = v`. -/
def Fields.set : Fields → String → Value → Fields
  | [], k, v => [(k, v)]
  | (k1, v1) :: rest, k, v =>
    if k1 = k then (k, v) :: rest else (k1, v1) :: Fields.set rest k v

/-- Map lookup `fields[k]`, `none` when the key is absent. -/
def Fields.get? : Fields → String → Option Value
  | [], _ => none
  | (k1, v1) :: rest, k => if k1 = k then some v1 else Fields.get? rest k

/-- Variable `logrus.ErrorKey`, at its declared value `"error"`. -/
def ErrorKey : String := "error"

/-- Builtin `copy(dst, src)`: the first `min(len(dst), len(src))` bytes of `dst`
are overwritten by those of `src`; the result is the new content of `dst`. -/
def copy (dst src : List Nat) : List Nat :=
  src.take dst.length ++ dst.drop (min dst.length src.length)

/-- Slice expression `s[i:]`; `none` is the panic for `i > len(s)`. -/
def sliceFrom (s : GoString) (i : Nat) : Option GoString :=
  if i ≤ s.length then some (s.drop i) else none

/-! ## gRPC status codes and logrus levels -/

/-- Type `codes.Code`, a `uint32`. -/
abbrev Code := Nat

/-- Method `codes.Code.String`. -/
def Code.String (c : Code) : String :=
  match c with
  | 0 => "OK"
  | 1 => "Canceled"
  | 2 => "Unknown"
  | 3 => "InvalidArgument"
  | 4 => "DeadlineExceeded"
  | 5 => "NotFound"
  | 6 => "AlreadyExists"
  | 7 => "PermissionDenied"
  | 8 => "ResourceExhausted"
  | 9 => "FailedPrecondition"
  | 10 => "Aborted"
  | 11 => "OutOfRange"
  | 12 => "Unimplemented"
  | 13 => "Internal"
  | 14 => "Unavailable"
  | 15 => "DataLoss"
  | 16 => "Unauthenticated"
  | n => "Code(" ++ toString n ++ ")"

/-- Type `logrus.Level`, a `uint32`. -/
abbrev Level := Nat

/-- Constant `logrus.PanicLevel`. -/
abbrev PanicLevel : Level := 0
/-- Constant `logrus.FatalLevel`. -/
abbrev FatalLevel : Level := 1
/-- Constant `logrus.ErrorLevel`. -/
abbrev ErrorLevel : Level := 2
/-- Constant `logrus.WarnLevel`. -/
abbrev WarnLevel : Level := 3
/-- Constant `logrus.InfoLevel`. -/
abbrev InfoLevel : Level := 4
/-- Constant `logrus.DebugLevel`. -/
abbrev DebugLevel : Level := 5
/-- Constant `logrus.TraceLevel`. -/
abbrev TraceLevel : Level := 6

/-- Function `grpc_logrus.DefaultCodeToLevel` of go-grpc-middleware: the default
mapping of gRPC return codes to log levels. -/
def DefaultCodeToLevel (code : Code) : Level :=
  match code with
  | 0 => InfoLevel   -- OK
  | 1 => InfoLevel   -- Canceled
  | 2 => ErrorLevel  -- Unknown
  | 3 => InfoLevel   -- InvalidArgument
  | 4 => WarnLevel   -- DeadlineExceeded
  | 5 => InfoLevel   -- NotFound
  | 6 => InfoLevel   -- AlreadyExists
  | 7 => WarnLevel   -- PermissionDenied
  | 16 => InfoLevel  -- Unauthenticated
  | 8 => WarnLevel   -- ResourceExhausted
  | 9 => WarnLevel   -- FailedPrecondition
  | 10 => WarnLevel  -- Aborted
  | 11 => WarnLevel  -- OutOfRange
  | 12 => ErrorLevel -- Unimplemented
  | 13 => ErrorLevel -- Internal
  | 14 => WarnLevel  -- Unavailable
  | 15 => ErrorLevel -- DataLoss
  | _ => ErrorLevel

/-! ## The world around the interceptors -/

/-- A reply target, an `interface{}` that holds a pointer to the response
message.  `GetContextId` is `none` when the dynamic type of the reply does not
implement `contextIDGetter`; otherwise it is the method, reading the message
as it is in the current state of the program. -/
structure Reply (σ : Type) where
  ref : Nat
  GetContextId : Option (σ → GoString)

/-- The arguments of one call of a `grpc.UnaryInvoker`. -/
structure InvokerCall (σ : Type) where
  ctx : Context
  method : GoString
  req : Value
  reply : Reply σ
  cc : Value
  opts : List Value

/-- Type `logrus.Logger`, as far as an entry reads it: the method `level()`, the
verbosity of the logger in the current state of the program. -/
structure Logger (σ : Type) where
  level : σ → Level

/-- Type `logrus.Entry`: the logger it belongs to and the fields of the record
to be. -/
structure Entry (σ : Type) where
  Logger : Logger σ
  Data : Fields

/-- A log record: its level, its fields, and its message, which is
`fmt.Sprintf(format, args...)`. -/
structure LogRecord where
  level : Level
  data : Fields
  format : String
  args : List Value
deriving DecidableEq, Repr

/-- What a run leaves behind, in order: a call of the invoker, of the handler or
of `ctxlogrus.AddFields`, a call of a logging method of an entry (`logf`, with
the level the method logs at: `Warningf` is `logf WarnLevel`), and a log record
that logrus emits (`record`). -/
inductive Event (σ : Type) where
  | invoker (call : InvokerCall σ)
  | handler (ctx : Context) (req : Value)
  | addFields (ctx : Context) (fields : Fields)
  | logf (level : Level) (entry : Entry σ) (format : String) (args : List Value)
  | record (r : LogRecord)

/-- The state of the program: the state `ext` that the collaborators own, and
the events so far, oldest first. -/
structure World (σ : Type) where
  ext : σ
  trace : List (Event σ)

/-- How a call ends: it returns, it panics, or the process exits. -/
inductive Outcome (α : Type) where
  | ok (a : α)
  | panic
  | exit (code : Nat)
deriving DecidableEq, Repr

/-- Type `grpc.UnaryInvoker`: the underlying call; it returns an error or `nil`
and may change the state, the message behind `reply` included. -/
abbrev Invoker (σ : Type) := InvokerCall σ → σ → Option GoError × σ

/-- Type `grpc.UnaryHandler`: it returns a response and an error. -/
abbrev Handler (σ : Type) := Context → Value → σ → (Option Value × Option GoError) × σ

/-- The library functions whose result depends on the state of the program. -/
structure Env (σ : Type) where
  /-- Function `time.Now`, as a reading of the clock in nanoseconds. -/
  now : σ → Int
  /-- Function `uuid.NewV4`: an identifier and an error. -/
  NewV4 : σ → (UUID × Option GoError) × σ
  /-- Function `ctxlogrus.AddFields`: its effect on the logger held by the context. -/
  AddFields : Context → Fields → σ → σ
  /-- Function `grpc_logging.DefaultErrorToCode`: the status code of an error. -/
  DefaultErrorToCode : Option GoError → Code
  /-- The standard logger `std` of logrus, which `log.WithFields` uses. -/
  std : Logger σ

variable {σ : Type}

/-- Function `time.Since(start)`: the clock now, minus `start`. -/
def timeSince (env : Env σ) (s : σ) (start : Int) : Int :=
  env.now s - start

/-- The call `invoker(ctx, method, req, reply, cc, opts...)`, recorded. -/
def callInvoker (invoker : Invoker σ) (call : InvokerCall σ) (w : World σ) :
    Option GoError × World σ :=
  let r := invoker call w.ext
  (r.1, { ext := r.2, trace := w.trace ++ [Event.invoker call] })

/-- The call `handler(ctx, req)`, recorded. -/
def callHandler (handler : Handler σ) (ctx : Context) (req : Value) (w : World σ) :
    (Option Value × Option GoError) × World σ :=
  let r := handler ctx req w.ext
  (r.1, { ext := r.2, trace := w.trace ++ [Event.handler ctx req] })

/-- The call `ctxlogrus.AddFields(ctx, fields)`, recorded. -/
def AddFields (env : Env σ) (ctx : Context) (fields : Fields) (w : World σ) : World σ :=
  { ext := env.AddFields ctx fields w.ext, trace := w.trace ++ [Event.addFields ctx fields] }

/-- Function `log.WithFields`: an entry of the standard logger with these fields. -/
def WithFields (env : Env σ) (fields : Fields) : Entry σ :=
  { Logger := env.std, Data := fields }

/-- Method `Logger.IsLevelEnabled`: `logger.level() >= level`. -/
def Logger.IsLevelEnabled (logger : Logger σ) (s : σ) (level : Level) : Bool :=
  decide (logger.level s ≥ level)

/-- Method `Entry.log`: the record is emitted, with the fields of the entry; at
panic level the method then panics. -/
def Entry.log (entry : Entry σ) (level : Level) (format : String) (args : List Value)
    (w : World σ) : Outcome Unit × World σ :=
  let w1 : World σ :=
    { w with trace := w.trace ++
        [Event.record { level := level, data := entry.Data, format := format, args := args }] }
  if level ≤ PanicLevel then (.panic, w1) else (.ok (), w1)

/-- Method `Entry.Logf`: `entry.Log(level, fmt.Sprintf(format, args...))` when the
level is enabled on the logger of the entry, and nothing otherwise. -/
def Entry.Logf (entry : Entry σ) (level : Level) (format : String) (args : List Value)
    (w : World σ) : Outcome Unit × World σ :=
  if entry.Logger.IsLevelEnabled w.ext level then entry.log level format args w
  else (.ok (), w)

/-- The call of a logging method of an entry, recorded. -/
def logCall (entry : Entry σ) (level : Level) (format : String) (args : List Value)
    (w : World σ) : World σ :=
  { w with trace := w.trace ++ [Event.logf level entry format args] }

/-- Method `Entry.Debugf`: `entry.Logf(DebugLevel, format, args...)`. -/
def Entry.Debugf (entry : Entry σ) (format : String) (args : List Value) (w : World σ) :
    Outcome Unit × World σ :=
  entry.Logf DebugLevel format args (logCall entry DebugLevel format args w)

/-- Method `Entry.Infof`: `entry.Logf(InfoLevel, format, args...)`. -/
def Entry.Infof (entry : Entry σ) (format : String) (args : List Value) (w : World σ) :
    Outcome Unit × World σ :=
  entry.Logf InfoLevel format args (logCall entry InfoLevel format args w)

/-- Method `Entry.Warningf`: `entry.Warnf`, which is `entry.Logf(WarnLevel, format, args...)`. -/
def Entry.Warningf (entry : Entry σ) (format : String) (args : List Value) (w : World σ) :
    Outcome Unit × World σ :=
  entry.Logf WarnLevel format args (logCall entry WarnLevel format args w)

/-- Method `Entry.Errorf`: `entry.Logf(ErrorLevel, format, args...)`. -/
def Entry.Errorf (entry : Entry σ) (format : String) (args : List Value) (w : World σ) :
    Outcome Unit × World σ :=
  entry.Logf ErrorLevel format args (logCall entry ErrorLevel format args w)

/-- Method `Entry.Fatalf`: `entry.Logf(FatalLevel, format, args...)`, then
`entry.Logger.Exit(1)`. -/
def Entry.Fatalf (entry : Entry σ) (format : String) (args : List Value) (w : World σ) :
    Outcome Unit × World σ :=
  match entry.Logf FatalLevel format args (logCall entry FatalLevel format args w) with
  | (.ok _, w1) => (.exit 1, w1)
  | (.panic, w1) => (.panic, w1)
  | (.exit c, w1) => (.exit c, w1)

/-- Method `Entry.Panicf`: `entry.Logf(PanicLevel, format, args...)`, which panics
after the record. -/
def Entry.Panicf (entry : Entry σ) (format : String) (args : List Value) (w : World σ) :
    Outcome Unit × World σ :=
  entry.Logf PanicLevel format args (logCall entry PanicLevel format args w)

/-! ## Package `logging` -/

/-- Function `levelLogf` (logging.go, lines 84-99): a `switch` over six levels,
without a `default` case. -/
def levelLogf (entry : Entry σ) (level : Level) (format : String) (args : List Value)
    (w : World σ) : Outcome Unit × World σ :=
  if level = DebugLevel then entry.Debugf format args w
  else if level = InfoLevel then entry.Infof format args w
  else if level = WarnLevel then entry.Warningf format args w
  else if level = ErrorLevel then entry.Errorf format args w
  else if level = FatalLevel then entry.Fatalf format args w
  else if level = PanicLevel then entry.Panicf format args w
  else (.ok (), w)

/-- Function `clientLoggerFields` (logging.go, lines 57-82), called in state `s`.
`none` is a panic of the slice expression `path.Dir(fullMethodString)[1:]` or
inside `path.Dir`. -/
def clientLoggerFields (env : Env σ) (s : σ) (ctx : Context) (fullMethodString : GoString)
    (resp : Reply σ) (err : Option GoError) (code : Code) (start : Int) : Option Fields :=
  match Dir fullMethodString with
  | none => none
  | some dir =>
    match sliceFrom dir 1 with
    | none => none
    | some service =>
      let method := Base fullMethodString
      let fields : Fields :=
        [ ("system", .str (lit "grpc")),
          ("span.kind", .str (lit "client")),
          ("grpc.service", .str service),
          ("grpc.method", .str method),
          ("grpc.duration", .duration (timeSince env s start)),
          ("grpc.code", .str (lit (Code.String code))) ]
      let fields1 :=
        match resp.GetContextId with
        | some getter =>
          -- var ctxID uuid.UUID; copy(ctxID[:], getter.GetContextId())
          let ctxID : UUID := copy (List.replicate 16 0) (getter s)
          fields.set "ctx_id" (.uuid ctxID)
        | none => fields
      let fields2 :=
        match err with
        | some e => fields1.set ErrorKey (.error e)
        | none => fields1
      some fields2

/-- Function `UnaryClientCtxIDInterceptor` (logging.go, lines 44-55). -/
def UnaryClientCtxIDInterceptor (env : Env σ) (ctx : Context) (method : GoString)
    (req : Value) (reply : Reply σ) (cc : Value) (invoker : Invoker σ) (opts : List Value)
    (w : World σ) : Outcome (Option GoError) × World σ :=
  let startTime := env.now w.ext
  let r := callInvoker invoker ⟨ctx, method, req, reply, cc, opts⟩ w
  let err := r.1
  let w1 := r.2
  let code := env.DefaultErrorToCode err
  let level := DefaultCodeToLevel code
  match clientLoggerFields env w1.ext ctx method reply err code startTime with
  | none => (.panic, w1)
  | some logFields =>
    match levelLogf (WithFields env logFields) level "finished client unary call" [] w1 with
    | (.ok _, w2) => (.ok err, w2)
    | (.panic, w2) => (.panic, w2)
    | (.exit c, w2) => (.exit c, w2)

/-- Function `UnaryServerCtxIDInterceptor` (logging.go, lines 31-42). -/
def UnaryServerCtxIDInterceptor (env : Env σ) (ctx : Context) (req : Value) (info : Value)
    (handler : Handler σ) (w : World σ) : (Option Value × Option GoError) × World σ :=
  let r := env.NewV4 w.ext
  let ctxID := r.1.1
  let err := r.1.2
  let w1 : World σ := { w with ext := r.2 }
  match err with
  | some _ => ((none, Wrap err "new uuid error"), w1)
  | none =>
    let ctx1 := Context.withValue ctx ContextIDKey (.uuid ctxID)
    let w2 := AddFields env ctx1 [("ctx_id", .uuid ctxID)] w1
    callHandler handler ctx1 req w2

/-! ## Reading a trace -/

/-- The calls of the invoker in a trace, oldest first. -/
def invokerCalls : List (Event σ) → List (InvokerCall σ)
  | [] => []
  | Event.invoker call :: rest => call :: invokerCalls rest
  | _ :: rest => invokerCalls rest

/-- The calls of the handler in a trace, oldest first. -/
def handlerCalls : List (Event σ) → List (Context × Value)
  | [] => []
  | Event.handler ctx req :: rest => (ctx, req) :: handlerCalls rest
  | _ :: rest => handlerCalls rest

/-- The calls of logging methods in a trace, oldest first: for each, the record
that the call asks for, with the fields that the entry holds. -/
def logCalls : List (Event σ) → List LogRecord
  | [] => []
  | Event.logf level entry format args :: rest =>
    { level := level, data := entry.Data, format := format, args := args } :: logCalls rest
  | _ :: rest => logCalls rest

/-- The log records emitted in a trace, oldest first. -/
def logRecords : List (Event σ) → List LogRecord
  | [] => []
  | Event.record r :: rest => r :: logRecords rest
  | _ :: rest => logRecords rest

/-- The events of a logging method at `level`: the call, and the record when the
logger admits the level. -/
def logEvents (entry : Entry σ) (level : Level) (format : String) (args : List Value)
    (s : σ) : List (Event σ) :=
  Event.logf level entry format args ::
    (if entry.Logger.level s ≥ level then
      [Event.record { level := level, data := entry.Data, format := format, args := args }]
     else [])

/-! ## The words of the specification about `fullMethod` -/

/-- The part of `s` before its last slash; empty when `s` has no slash. -/
def beforeLastSlash (s : GoString) : GoString :=
  ((s.reverse.dropWhile (fun c => decide (c ≠ slash))).drop 1).reverse

/-- The part of `s` after its last slash; all of `s` when it has no slash. -/
def afterLastSlash (s : GoString) : GoString :=
  (s.reverse.takeWhile (fun c => decide (c ≠ slash))).reverse

/-- The string `s` with the leading slash stripped, when it has one. -/
def stripLeadingSlash (s : GoString) : GoString :=
  match s with
  | [] => []
  | c :: rest => if c = slash then rest else c :: rest

/-! ## Predicates and paths used in the proofs -/

/-- The output buffer belongs to `path`: it reads from `path`, and an allocated
buffer has the length of `path`. -/
def BufOK (path : GoString) (b : lazybuf) : Prop :=
  b.s = path ∧ ∀ buf, b.buf = some buf → buf.length = path.length

/-- Invariant of the main loop of `Clean`: the write index never overtakes the
read index, and it catches up only at the end of an element or at the start. -/
def CleanInv (path : GoString) (rooted : Bool) (st : CleanState) : Prop :=
  BufOK path st.out ∧ st.r ≤ path.length ∧ st.out.w ≤ st.r ∧
  (st.out.w = st.r →
    st.r = path.length ∨ path[st.r]? = some slash ∨ st.out.w = if rooted then 1 else 0)

/-- The path `/s1/s2/.../sk` of the segments `s1, ..., sk`. -/
def joinSegs : List GoString → GoString
  | [] => []
  | seg :: rest => slash :: seg ++ joinSegs rest

/-- A path element that `Clean` keeps: not empty, without a slash, and neither
`.` nor `..`. -/
def CleanSeg (seg : GoString) : Prop :=
  seg ≠ [] ∧ slash ∉ seg ∧ seg ≠ [dot] ∧ seg ≠ [dot, dot]

instance (seg : GoString) : Decidable (CleanSeg seg) :=
  inferInstanceAs (Decidable (seg ≠ [] ∧ slash ∉ seg ∧ seg ≠ [dot] ∧ seg ≠ [dot, dot]))

/-! ## A small world for concrete runs -/

/-- The state before a concrete run: the counter at 0, no call made yet. -/
def startWorld : World Nat := { ext := 0, trace := [] }

/-- An environment over a counter: the clock reads the counter, `uuid.NewV4`
succeeds with the identifier of sixteen bytes 7, an error that is not `nil`
has status `Unknown`, and the standard logger is at info level, as logrus
sets it up. -/
def counterEnv : Env Nat where
  now := fun s => (s : Int)
  NewV4 := fun s => ((List.replicate 16 7, none), s)
  AddFields := fun _ _ s => s
  DefaultErrorToCode := fun err => match err with
    | none => 0
    | some _ => 2
  std := { level := fun _ => InfoLevel }

/-- The environment `counterEnv` after `logrus.SetLevel(logrus.ErrorLevel)`. -/
def quietEnv : Env Nat :=
  { counterEnv with std := { level := fun _ => ErrorLevel } }

/-- An invoker that takes five ticks and succeeds. -/
def okInvoker : Invoker Nat :=
  fun _ s => (none, s + 5)

/-- The environment `counterEnv` with an entropy source that fails. -/
def noEntropyEnv : Env Nat :=
  { counterEnv with NewV4 := fun s => ((List.replicate 16 0, some (.leaf 1 "EOF")), s) }

/-- An invoker that takes five ticks and fails with an error of status `Unknown`. -/
def failingInvoker : Invoker Nat :=
  fun _ s => (some (.leaf 2 "connection refused"), s + 5)

/-- A handler that answers with a response and no error. -/
def echoHandler : Handler Nat :=
  fun _ _ s => ((some (.obj 9), none), s + 1)

/-- A reply whose type has no `GetContextId` method. -/
def plainReply : Reply Nat := { ref := 0, GetContextId := none }

/-- A reply whose `GetContextId` returns the three bytes 1, 2, 3. -/
def shortIdReply : Reply Nat := { ref := 1, GetContextId := some (fun _ => [1, 2, 3]) }

/-- A reply whose `GetContextId` returns the sixteen bytes 1, 2, ..., 16. -/
def fullIdReply : Reply Nat :=
  { ref := 2, GetContextId := some (fun _ => [1, 2, 3, 4, 5, 6, 7, 8, 9, 10, 11, 12, 13, 14, 15, 16]) }

/-! # Theorems -/

/-! ## `path.Clean` returns, and never the empty string -/

theorem append_ok {path : GoString} {b : lazybuf} (c : Nat) (hb : BufOK path b)
    (hw : b.w < path.length) :
    ∃ b1, b.append c = some b1 ∧ BufOK path b1 ∧ b1.w = b.w + 1 := by
  obtain ⟨hs, hbuf⟩ := hb
  cases hbo : b.buf with
  | none =>
    by_cases hc : b.w < b.s.length ∧ b.s[b.w]? = some c
    · refine ⟨{ b with w := b.w + 1 }, ?_, ⟨hs, ?_⟩, rfl⟩
      · simp [lazybuf.append, hbo, hc]
      · intro buf h; exact hbuf buf h
    · have hle : b.w ≤ b.s.length := by rw [hs]; omega
      have hlen : (b.s.take b.w ++ List.replicate (b.s.length - b.w) 0).length = path.length := by
        simp [List.length_take]; rw [hs]; omega
      refine ⟨{ b with buf := some ((b.s.take b.w ++ List.replicate (b.s.length - b.w) 0).set b.w c),
                       w := b.w + 1 }, ?_, ⟨hs, ?_⟩, rfl⟩
      · unfold lazybuf.append
        simp only [hbo]
        rw [if_neg hc, if_pos hle, if_pos (by rw [hlen]; exact hw)]
      · intro buf h
        have h2 : buf = (b.s.take b.w ++ List.replicate (b.s.length - b.w) 0).set b.w c :=
          (Option.some.inj h).symm
        rw [h2, List.length_set, hlen]
  | some buf =>
    have hl := hbuf buf hbo
    refine ⟨{ b with buf := some (buf.set b.w c), w := b.w + 1 }, ?_, ⟨hs, ?_⟩, rfl⟩
    · unfold lazybuf.append
      simp only [hbo]
      rw [if_pos (by rw [hl]; exact hw)]
    · intro buf1 h
      have h2 : buf1 = buf.set b.w c := (Option.some.inj h).symm
      rw [h2, List.length_set, hl]

theorem index_ok {path : GoString} {b : lazybuf} (hb : BufOK path b) {i : Nat}
    (hi : i < path.length) : ∃ c, b.index i = some c := by
  obtain ⟨hs, hbuf⟩ := hb
  cases hbo : b.buf with
  | none =>
    refine ⟨path[i], ?_⟩
    simp [lazybuf.index, hbo, hs, List.getElem?_eq_getElem hi]
  | some buf =>
    have hl := hbuf buf hbo
    have hi2 : i < buf.length := by omega
    refine ⟨buf[i], ?_⟩
    simp [lazybuf.index, hbo, List.getElem?_eq_getElem hi2]

theorem backtrack_ok {path : GoString} {b : lazybuf} (hb : BufOK path b) (dotdot : Nat) :
    ∀ w, w < path.length → ∃ w1, backtrack b dotdot w = some w1 ∧ w1 ≤ w := by
  intro w
  induction w with
  | zero => intro _; exact ⟨0, rfl, le_refl _⟩
  | succ w ih =>
    intro hw
    by_cases hd : w + 1 > dotdot
    · obtain ⟨c, hc⟩ := index_ok hb hw
      by_cases hcs : c ≠ slash
      · obtain ⟨w1, h1, h2⟩ := ih (by omega)
        refine ⟨w1, ?_, by omega⟩
        simp only [backtrack, if_pos hd, hc, if_pos hcs, h1]
      · refine ⟨w + 1, ?_, le_refl _⟩
        simp only [backtrack, if_pos hd, hc, if_neg hcs]
    · refine ⟨w + 1, ?_, le_refl _⟩
      simp only [backtrack, if_neg hd]

theorem drop_cons_facts {path : GoString} {r c : Nat} {rest : GoString}
    (h : path.drop r = c :: rest) :
    r < path.length ∧ path[r]? = some c ∧ path.drop (r + 1) = rest := by
  have h1 : r < path.length := by
    by_contra hn
    have : path.drop r = [] := List.drop_eq_nil_of_le (by omega)
    rw [this] at h
    exact List.noConfusion h
  have h2 : path[r]? = some c := by
    have h0 := List.getElem?_drop path r 0
    rw [h] at h0
    simpa using h0.symm
  have h3 : path.drop (r + 1) = rest := by
    have : (path.drop r).drop 1 = rest := by rw [h]; rfl
    rw [← this, List.drop_drop]
  exact ⟨h1, h2, h3⟩

theorem copyElem_ok {path : GoString} :
    ∀ (rest : GoString) (out : lazybuf) (r : Nat), BufOK path out → path.drop r = rest →
      r ≤ path.length → out.w ≤ r →
      ∃ o2 r2, copyElem rest out r = some (o2, r2) ∧ BufOK path o2 ∧ r ≤ r2 ∧
        r2 ≤ path.length ∧ o2.w + r = out.w + r2 ∧
        (r2 = path.length ∨ path[r2]? = some slash) ∧
        (∀ c t, rest = c :: t → c ≠ slash → r < r2) := by
  intro rest
  induction rest with
  | nil =>
    intro out r hb hd hr hw
    have hn : path.length ≤ r := by
      by_contra hlt
      have hlen : (path.drop r).length = 0 := by rw [hd]; rfl
      rw [List.length_drop] at hlen
      omega
    refine ⟨out, r, rfl, hb, le_refl _, hr, rfl, Or.inl (by omega), ?_⟩
    intro c t h
    exact List.noConfusion h
  | cons c rest ih =>
    intro out r hb hd hr hw
    obtain ⟨h1, h2, h3⟩ := drop_cons_facts hd
    by_cases hc : c ≠ slash
    · obtain ⟨o1, ha, hb1, hw1⟩ := append_ok c hb (by omega)
      obtain ⟨o2, r2, hcp, hb2, hr2, hr2n, hwr, hend, _⟩ :=
        ih o1 (r + 1) hb1 h3 (by omega) (by omega)
      refine ⟨o2, r2, ?_, hb2, by omega, hr2n, by omega, hend, ?_⟩
      · simp only [copyElem, if_pos hc, ha, hcp]
      · intro _ _ _ _
        omega
    · have hcs : c = slash := by simpa using hc
      refine ⟨out, r, ?_, hb, le_refl _, hr, rfl, Or.inr (by rw [h2, hcs]), ?_⟩
      · simp only [copyElem, if_neg hc]
      · intro c1 t h hne
        have : c1 = c := (List.cons.inj h).1.symm
        exact absurd (this ▸ hcs) hne

theorem cleanStep_ok {path : GoString} {rooted : Bool} {st : CleanState}
    (hinv : CleanInv path rooted st) (hr : st.r < path.length) :
    ∃ st1, cleanStep path rooted st = some st1 ∧ CleanInv path rooted st1 ∧ st.r < st1.r := by
  obtain ⟨hb, hrn, hwr, hcl⟩ := hinv
  have hc : path[st.r]? = some path[st.r] := List.getElem?_eq_getElem hr
  generalize path[st.r] = c at hc
  by_cases h1 : c = slash
  · refine ⟨{ st with r := st.r + 1 }, ?_, ⟨hb, ?_, ?_, ?_⟩, ?_⟩
    · simp only [cleanStep, hc, if_pos h1]
    · show st.r + 1 ≤ path.length
      omega
    · show st.out.w ≤ st.r + 1
      omega
    · intro h
      have h2 : st.out.w = st.r + 1 := h
      omega
    · show st.r < st.r + 1
      omega
  by_cases h2 : c = dot ∧ (st.r + 1 = path.length ∨ path[st.r + 1]? = some slash)
  · refine ⟨{ st with r := st.r + 1 }, ?_, ⟨hb, ?_, ?_, ?_⟩, ?_⟩
    · simp only [cleanStep, hc, if_neg h1, if_pos h2]
    · show st.r + 1 ≤ path.length
      omega
    · show st.out.w ≤ st.r + 1
      omega
    · intro h
      have h2 : st.out.w = st.r + 1 := h
      omega
    · show st.r < st.r + 1
      omega
  -- when the write index is not at its base, it is strictly behind the read index
  have hlt : st.out.w ≠ (if rooted then 1 else 0) → st.out.w < st.r := by
    intro hne
    rcases Nat.lt_or_ge st.out.w st.r with h | h
    · exact h
    · have heq : st.out.w = st.r := by omega
      rcases hcl heq with h3 | h3 | h3
      · omega
      · rw [hc] at h3
        exact absurd (Option.some.inj h3) h1
      · exact absurd h3 hne
  by_cases h3 : c = dot ∧ path[st.r + 1]? = some dot ∧
      (st.r + 2 = path.length ∨ path[st.r + 2]? = some slash)
  · have hr1 : st.r + 1 < path.length := by
      obtain ⟨h, _⟩ := List.getElem?_eq_some.mp h3.2.1
      exact h
    by_cases h4 : st.out.w > st.dotdot
    · obtain ⟨w1, hbt, hw1⟩ := backtrack_ok hb st.dotdot (st.out.w - 1) (by omega)
      refine ⟨{ st with out := { st.out with w := w1 }, r := st.r + 2 }, ?_,
        ⟨⟨hb.1, hb.2⟩, ?_, ?_, ?_⟩, ?_⟩
      · simp only [cleanStep, hc, if_neg h1, if_neg h2, if_pos h3, if_pos h4, hbt]
      · show st.r + 2 ≤ path.length
        omega
      · show w1 ≤ st.r + 2
        omega
      · intro h
        have h5 : w1 = st.r + 2 := h
        omega
      · show st.r < st.r + 2
        omega
    · cases hroot : rooted with
      | true =>
        refine ⟨{ st with r := st.r + 2 }, ?_, ⟨hb, ?_, ?_, ?_⟩, ?_⟩
        · simp only [cleanStep, hc, if_neg h1, if_neg h2, if_pos h3, if_neg h4, Bool.not_true]
          rfl
        · show st.r + 2 ≤ path.length
          omega
        · show st.out.w ≤ st.r + 2
          omega
        · intro h
          have h5 : st.out.w = st.r + 2 := h
          omega
        · show st.r < st.r + 2
          omega
      | false =>
        rw [hroot] at hlt
        have ho1 : ∃ o1, (if st.out.w > 0 then st.out.append slash else some st.out) = some o1 ∧
            BufOK path o1 ∧ o1.w ≤ st.r := by
          by_cases h5 : st.out.w > 0
          · have hw : st.out.w < st.r := hlt (by simp; omega)
            obtain ⟨o1, ha, hb1, hw1⟩ := append_ok slash hb (by omega)
            exact ⟨o1, by rw [if_pos h5, ha], hb1, by omega⟩
          · exact ⟨st.out, by rw [if_neg h5], hb, hwr⟩
        obtain ⟨o1, he1, hb1, hw1⟩ := ho1
        obtain ⟨o2, he2, hb2, hw2⟩ := append_ok dot hb1 (by omega)
        obtain ⟨o3, he3, hb3, hw3⟩ := append_ok dot hb2 (by omega)
        refine ⟨{ out := o3, r := st.r + 2, dotdot := o3.w }, ?_, ⟨hb3, ?_, ?_, ?_⟩, ?_⟩
        · simp only [cleanStep, hc, if_neg h1, if_neg h2, if_pos h3, if_neg h4, Bool.not_false,
            if_true, he1, he2, he3]
        · show st.r + 2 ≤ path.length
          omega
        · show o3.w ≤ st.r + 2
          omega
        · intro _
          rcases h3.2.2 with h | h
          · exact Or.inl h
          · exact Or.inr (Or.inl h)
        · show st.r < st.r + 2
          omega
  · have ho1 : ∃ o1, (if (rooted ∧ st.out.w ≠ 1) ∨ (!rooted ∧ st.out.w ≠ 0) then
          st.out.append slash else some st.out) = some o1 ∧ BufOK path o1 ∧ o1.w ≤ st.r := by
      by_cases h5 : (rooted ∧ st.out.w ≠ 1) ∨ (!rooted ∧ st.out.w ≠ 0)
      · have hw : st.out.w < st.r := by
          apply hlt
          cases rooted <;> simp at h5 ⊢ <;> omega
        obtain ⟨o1, ha, hb1, hw1⟩ := append_ok slash hb (by omega)
        exact ⟨o1, by rw [if_pos h5, ha], hb1, by omega⟩
      · exact ⟨st.out, by rw [if_neg h5], hb, hwr⟩
    obtain ⟨o1, he1, hb1, hw1⟩ := ho1
    have hdrop : path.drop st.r = c :: path.drop (st.r + 1) := by
      rw [List.drop_eq_getElem_cons hr]
      congr 1
      have := List.getElem?_eq_getElem hr
      rw [hc] at this
      exact (Option.some.inj this).symm
    obtain ⟨o2, r2, hcp, hb2, hr2, hr2n, hwr2, hend, hstrict⟩ :=
      copyElem_ok (path.drop st.r) o1 st.r hb1 rfl hrn hw1
    have hlt2 : st.r < r2 := hstrict c _ hdrop h1
    refine ⟨{ st with out := o2, r := r2 }, ?_, ⟨hb2, hr2n, ?_, ?_⟩, hlt2⟩
    · simp only [cleanStep, hc, if_neg h1, if_neg h2, if_neg h3, he1, hcp]
    · show o2.w ≤ r2
      omega
    · intro _
      rcases hend with h | h
      · exact Or.inl h
      · exact Or.inr (Or.inl h)

theorem cleanLoop_ok {path : GoString} {rooted : Bool} :
    ∀ (fuel : Nat) (st : CleanState), CleanInv path rooted st → path.length - st.r ≤ fuel →
      ∃ st1, cleanLoop path rooted fuel st = some st1 ∧ BufOK path st1.out ∧
        st1.out.w ≤ path.length := by
  intro fuel
  induction fuel with
  | zero =>
    intro st hinv hf
    have hr : ¬ st.r < path.length := by omega
    refine ⟨st, ?_, hinv.1, ?_⟩
    · simp only [cleanLoop, if_neg hr]
    · have := hinv.2.1
      have := hinv.2.2.1
      omega
  | succ fuel ih =>
    intro st hinv hf
    by_cases hr : st.r < path.length
    · obtain ⟨st1, hs, hinv1, hlt⟩ := cleanStep_ok hinv hr
      obtain ⟨st2, hl, hb2, hw2⟩ := ih st1 hinv1 (by omega)
      exact ⟨st2, by simp only [cleanLoop, if_pos hr, hs, hl], hb2, hw2⟩
    · refine ⟨st, ?_, hinv.1, ?_⟩
      · simp only [cleanLoop, if_neg hr]
      · have := hinv.2.1
        have := hinv.2.2.1
        omega

theorem string_ok {path : GoString} {b : lazybuf} (hb : BufOK path b)
    (hw : b.w ≤ path.length) (h0 : b.w ≠ 0) :
    ∃ out, b.string = some out ∧ out ≠ [] := by
  obtain ⟨hs, hbuf⟩ := hb
  cases hbo : b.buf with
  | none =>
    refine ⟨b.s.take b.w, ?_, ?_⟩
    · simp only [lazybuf.string, hbo]
      rw [if_pos (by rw [hs]; exact hw)]
    · intro h
      have hl : (b.s.take b.w).length = 0 := by rw [h]; rfl
      rw [List.length_take, hs] at hl
      omega
  | some buf =>
    have hl := hbuf buf hbo
    refine ⟨buf.take b.w, ?_, ?_⟩
    · simp only [lazybuf.string, hbo]
      rw [if_pos (by rw [hl]; exact hw)]
    · intro h
      have hl2 : (buf.take b.w).length = 0 := by rw [h]; rfl
      rw [List.length_take, hl] at hl2
      omega

/-- Function `path.Clean` returns for every input, and never the empty string. -/
theorem Clean_total (path : GoString) : ∃ out, Clean path = some out ∧ out ≠ [] := by
  by_cases hp : path = []
  · exact ⟨[dot], by simp [Clean, hp], by simp⟩
  have hn : 0 < path.length := List.length_pos.mpr hp
  have hb0 : BufOK path { s := path, buf := none, w := 0 } :=
    ⟨rfl, fun _ h => Option.noConfusion h⟩
  have hst0 : ∃ st0, (if ((decide (path[0]? = some slash)) : Bool) = true then
        (lazybuf.append { s := path, buf := none, w := 0 } slash).map
          (fun o => CleanState.mk o 1 1)
        else some (CleanState.mk { s := path, buf := none, w := 0 } 0 0)) = some st0 ∧
      CleanInv path (decide (path[0]? = some slash)) st0 := by
    by_cases hroot : path[0]? = some slash
    · obtain ⟨o1, ha, hb1, hw1⟩ := append_ok slash hb0 hn
      refine ⟨CleanState.mk o1 1 1, ?_, hb1, ?_, ?_, ?_⟩
      · simp [hroot, ha]
      · show 1 ≤ path.length
        omega
      · show o1.w ≤ 1
        rw [hw1]
      · intro _
        right; right
        simp [hroot, hw1]
    · refine ⟨CleanState.mk { s := path, buf := none, w := 0 } 0 0, ?_, hb0, ?_, ?_, ?_⟩
      · simp [hroot]
      · exact Nat.zero_le _
      · exact le_refl _
      · intro _
        right; right
        simp [hroot]
  obtain ⟨st0, he0, hinv0⟩ := hst0
  obtain ⟨st, hl, hbs, hws⟩ := cleanLoop_ok path.length st0 hinv0 (by omega)
  by_cases hw0 : st.out.w = 0
  · refine ⟨[dot], ?_, by simp⟩
    simp only [Clean, if_neg hp, he0, hl, if_pos hw0]
  · obtain ⟨out, hso, hne⟩ := string_ok hbs hws hw0
    refine ⟨out, ?_, hne⟩
    simp only [Clean, if_neg hp, he0, hl, if_neg hw0, hso]

/-! ### `Clean` on a path that is already clean -/

theorem lazy_append {path : GoString} {k c : Nat} (h : path[k]? = some c) :
    lazybuf.append { s := path, buf := none, w := k } c
      = some { s := path, buf := none, w := k + 1 } := by
  have hk : k < path.length := (List.getElem?_eq_some.mp h).1
  simp only [lazybuf.append]
  rw [if_pos ⟨hk, h⟩]

theorem copyElem_lazy {path : GoString} (t : GoString) :
    ∀ (seg : GoString) (k : Nat), slash ∉ seg → path.drop k = seg ++ slash :: t →
      copyElem (seg ++ slash :: t) { s := path, buf := none, w := k } k
        = some ({ s := path, buf := none, w := k + seg.length }, k + seg.length) := by
  intro seg
  induction seg with
  | nil =>
    intro k _ _
    simp [copyElem]
  | cons c seg ih =>
    intro k hns hd
    obtain ⟨_, h2, h3⟩ := drop_cons_facts (show path.drop k = c :: (seg ++ slash :: t) from hd)
    have hc : c ≠ slash := fun h => hns (by simp [h])
    have hns2 : slash ∉ seg := fun h => hns (List.mem_cons_of_mem _ h)
    have hih := ih (k + 1) hns2 h3
    have e : k + 1 + seg.length = k + (c :: seg).length := by
      simp only [List.length_cons]; omega
    rw [e] at hih
    show copyElem (c :: (seg ++ slash :: t)) _ k = _
    simp only [copyElem, if_pos hc, lazy_append h2, hih]

theorem joinSegs_slash (rest : List GoString) :
    ∃ t, joinSegs rest ++ [slash] = slash :: t := by
  cases rest with
  | nil => exact ⟨[], rfl⟩
  | cons seg rest => exact ⟨seg ++ joinSegs rest ++ [slash], by simp [joinSegs]⟩

/-- The default case of the loop of `Clean`, when the output is still a slice of
the input: the slash (unless the output is just the root) and the element are
taken over from the input. -/
theorem cleanStep_real {path pre rest : GoString} {w0 c m : Nat}
    (hw0 : (pre = [] ∧ w0 = 1) ∨ (2 ≤ pre.length ∧ w0 = pre.length))
    (hslash : path[pre.length]? = some slash)
    (e0 : path[pre.length + 1]? = some c) (hc : c ≠ slash)
    (c2 : ¬ (c = dot ∧ (pre.length + 1 + 1 = path.length ∨
        path[pre.length + 1 + 1]? = some slash)))
    (c3 : ¬ (c = dot ∧ path[pre.length + 1 + 1]? = some dot ∧
        (pre.length + 1 + 2 = path.length ∨ path[pre.length + 1 + 2]? = some slash)))
    (hd : path.drop (pre.length + 1) = rest)
    (hcopy : copyElem rest { s := path, buf := none, w := pre.length + 1 } (pre.length + 1)
      = some ({ s := path, buf := none, w := m }, m)) :
    cleanStep path true { out := { s := path, buf := none, w := w0 }, r := pre.length + 1,
                          dotdot := 1 }
      = some { out := { s := path, buf := none, w := m }, r := m, dotdot := 1 } := by
  rcases hw0 with ⟨hpre, hw⟩ | ⟨hpre, hw⟩
  · subst hw
    have hpl : pre.length = 0 := by rw [hpre]; rfl
    rw [hpl] at e0 c2 c3 hd hcopy
    rw [hpl]
    simp only [cleanStep, e0, if_neg hc, if_neg c2, if_neg c3, hd]
    simp only [ne_eq, not_true_eq_false, and_false, Bool.not_true, Bool.false_eq_true,
      false_and, or_self, if_false]
    rw [hcopy]
  · subst hw
    have hne : pre.length ≠ 1 := by omega
    simp only [cleanStep, e0, if_neg hc, if_neg c2, if_neg c3, hd]
    simp only [ne_eq, hne, not_false_eq_true, and_true, Bool.not_true, Bool.false_eq_true,
      false_and, or_false, if_true, lazy_append hslash]
    rw [hcopy]

/-- One iteration of the loop of `Clean` at the start of a clean element copies
the element, with the slash before it, and leaves the output a slice of the
input. -/
theorem cleanStep_seg {path pre seg t : GoString} {w0 : Nat} (hseg : CleanSeg seg)
    (hp : path = pre ++ slash :: (seg ++ slash :: t))
    (hw0 : (pre = [] ∧ w0 = 1) ∨ (2 ≤ pre.length ∧ w0 = pre.length)) :
    cleanStep path true { out := { s := path, buf := none, w := w0 }, r := pre.length + 1,
                          dotdot := 1 }
      = some { out := { s := path, buf := none, w := pre.length + 1 + seg.length },
               r := pre.length + 1 + seg.length, dotdot := 1 } := by
  obtain ⟨hne, hns, hnd, hndd⟩ := hseg
  have hd : path.drop (pre.length + 1) = seg ++ slash :: t := by
    rw [hp]
    have : pre ++ slash :: (seg ++ slash :: t) = (pre ++ [slash]) ++ (seg ++ slash :: t) := by
      simp
    rw [this]
    have hl : pre.length + 1 = (pre ++ [slash]).length := by simp
    rw [hl, List.drop_left]
  have hn : path.length = pre.length + 1 + seg.length + 1 + t.length := by
    rw [hp]; simp; omega
  have hslash : path[pre.length]? = some slash := by
    rw [hp, List.getElem?_append_right (le_refl _)]
    simp
  have g0 : path[pre.length + 1]? = (seg ++ slash :: t)[0]? := by
    rw [← hd, List.getElem?_drop]
  have g1 : path[pre.length + 1 + 1]? = (seg ++ slash :: t)[1]? := by
    rw [← hd, List.getElem?_drop]
  have g2 : path[pre.length + 1 + 2]? = (seg ++ slash :: t)[2]? := by
    rw [← hd, List.getElem?_drop]
  have hcopy := copyElem_lazy t seg (pre.length + 1) hns hd
  rcases seg with _ | ⟨c, seg⟩
  · exact absurd rfl hne
  have hc : c ≠ slash := fun h => hns (by simp [h])
  have e0 : path[pre.length + 1]? = some c := by rw [g0]; simp
  rcases seg with _ | ⟨d, seg⟩
  · -- a one-byte element
    have hcd : c ≠ dot := fun h => hnd (by rw [h])
    exact cleanStep_real hw0 hslash e0 hc (fun h => hcd h.1) (fun h => hcd h.1) hd hcopy
  · have hd1 : d ≠ slash := fun h => hns (by simp [h])
    have e1 : path[pre.length + 1 + 1]? = some d := by rw [g1]; simp
    have c2 : ¬ (c = dot ∧ (pre.length + 1 + 1 = path.length ∨
        path[pre.length + 1 + 1]? = some slash)) := by
      rintro ⟨_, h | h⟩
      · simp at hn; omega
      · rw [e1] at h
        exact hd1 (Option.some.inj h)
    have c3 : ¬ (c = dot ∧ path[pre.length + 1 + 1]? = some dot ∧
        (pre.length + 1 + 2 = path.length ∨ path[pre.length + 1 + 2]? = some slash)) := by
      rintro ⟨hcd, hdd, h⟩
      rw [e1] at hdd
      have hdd2 : d = dot := Option.some.inj hdd
      rcases seg with _ | ⟨e, seg⟩
      · exact hndd (by rw [hcd, hdd2])
      · have he : e ≠ slash := fun h => hns (by simp [h])
        have e2 : path[pre.length + 1 + 2]? = some e := by rw [g2]; simp
        rcases h with h | h
        · simp at hn; omega
        · rw [e2] at h
          exact he (Option.some.inj h)
    exact cleanStep_real hw0 hslash e0 hc c2 c3 hd hcopy

theorem cleanLoop_done {path : GoString} {rooted : Bool} {st : CleanState}
    (h : ¬ st.r < path.length) (fuel : Nat) : cleanLoop path rooted fuel st = some st := by
  cases fuel <;> simp only [cleanLoop, if_neg h]

theorem cleanStep_slash {path : GoString} {rooted : Bool} {st : CleanState}
    (h : path[st.r]? = some slash) :
    cleanStep path rooted st = some { st with r := st.r + 1 } := by
  simp only [cleanStep, h, if_true]

theorem joinSegs_length (segs : List GoString) (hall : ∀ seg ∈ segs, CleanSeg seg) :
    2 * segs.length ≤ (joinSegs segs).length := by
  induction segs with
  | nil => simp [joinSegs]
  | cons seg rest ih =>
    have h1 : seg ≠ [] := (hall seg (List.mem_cons_self _ _)).1
    have h2 : 0 < seg.length := List.length_pos.mpr h1
    have h3 := ih (fun x hx => hall x (List.mem_cons_of_mem _ hx))
    simp only [joinSegs, List.length_cons, List.length_append]
    omega

/-- From a slash of a clean rooted path that ends in a slash, the loop of `Clean`
runs to the end of the input and keeps everything but the final slash. -/
theorem cleanLoop_segs {path : GoString} :
    ∀ (segs : List GoString) (pre : GoString) (fuel : Nat), (∀ seg ∈ segs, CleanSeg seg) →
      2 ≤ pre.length → path = pre ++ (joinSegs segs ++ [slash]) → 2 * segs.length + 1 ≤ fuel →
      cleanLoop path true fuel
          { out := { s := path, buf := none, w := pre.length }, r := pre.length, dotdot := 1 }
        = some { out := { s := path, buf := none, w := path.length - 1 }, r := path.length,
                 dotdot := 1 } := by
  intro segs
  induction segs with
  | nil =>
    intro pre fuel _ _ hp hf
    have hn : path.length = pre.length + 1 := by rw [hp]; simp [joinSegs]
    have hslash : path[pre.length]? = some slash := by
      rw [hp, List.getElem?_append_right (le_refl _)]
      simp [joinSegs]
    obtain ⟨f, rfl⟩ : ∃ f, fuel = f + 1 := ⟨fuel - 1, by omega⟩
    have hr : pre.length < path.length := by omega
    simp only [cleanLoop, if_pos hr]
    rw [cleanStep_slash (by exact hslash)]
    simp only []
    rw [cleanLoop_done (by simp only []; omega)]
    rw [hn]
    rfl
  | cons seg rest ih =>
    intro pre fuel hall hpre hp hf
    obtain ⟨t, ht⟩ := joinSegs_slash rest
    have hp2 : path = pre ++ slash :: (seg ++ slash :: t) := by
      rw [hp, ← ht]; simp [joinSegs]
    have hn : path.length = pre.length + 1 + seg.length + 1 + t.length := by
      rw [hp2]; simp; omega
    have hslash : path[pre.length]? = some slash := by
      rw [hp2, List.getElem?_append_right (le_refl _)]
      simp
    obtain ⟨f, rfl⟩ : ∃ f, fuel = f + 2 := ⟨fuel - 2, by simp at hf; omega⟩
    have hr : pre.length < path.length := by omega
    have hr1 : pre.length + 1 < path.length := by omega
    have hseg : CleanSeg seg := hall seg (List.mem_cons_self _ _)
    have hstep := cleanStep_seg hseg hp2 (Or.inr ⟨hpre, rfl⟩)
    have hih := ih (pre ++ slash :: seg) f (fun x hx => hall x (List.mem_cons_of_mem _ hx))
      (by simp; omega) (by rw [hp]; simp [joinSegs]) (by simp at hf; omega)
    have hl : (pre ++ slash :: seg).length = pre.length + 1 + seg.length := by simp; omega
    rw [hl] at hih
    simp only [cleanLoop, if_pos hr]
    rw [cleanStep_slash (by exact hslash)]
    simp only [if_pos hr1]
    rw [hstep]
    exact hih

/-- Function `Clean` removes the final slash of a clean rooted path, and nothing else. -/
theorem Clean_joinSegs (segs : List GoString) (hall : ∀ seg ∈ segs, CleanSeg seg)
    (hne : segs ≠ []) : Clean (joinSegs segs ++ [slash]) = some (joinSegs segs) := by
  obtain ⟨seg, rest, rfl⟩ := List.exists_cons_of_ne_nil hne
  obtain ⟨t, ht⟩ := joinSegs_slash rest
  generalize hpath : joinSegs (seg :: rest) ++ [slash] = path
  have hp2 : path = ([] : GoString) ++ slash :: (seg ++ slash :: t) := by
    rw [← hpath, ← ht]; simp [joinSegs]
  have hseg : CleanSeg seg := hall seg (List.mem_cons_self _ _)
  have hrest : ∀ x ∈ rest, CleanSeg x := fun x hx => hall x (List.mem_cons_of_mem _ hx)
  have hn : path.length = 1 + seg.length + (joinSegs rest).length + 1 := by
    rw [← hpath]; simp [joinSegs]; omega
  have hjl := joinSegs_length rest hrest
  have hsl : 0 < seg.length := List.length_pos.mpr hseg.1
  have hp : path ≠ [] := by rw [hp2]; simp
  have h0 : path[0]? = some slash := by rw [hp2]; simp
  obtain ⟨f, hf⟩ : ∃ f, path.length = f + 1 := ⟨path.length - 1, by omega⟩
  have hstep := cleanStep_seg hseg hp2 (Or.inl ⟨rfl, rfl⟩)
  have hloop := @cleanLoop_segs path rest (slash :: seg) f hrest (by simp; omega)
    (by rw [← hpath]; simp [joinSegs]) (by omega)
  simp only [List.length_nil, Nat.zero_add] at hstep
  simp only [List.length_cons] at hloop
  have e1 : seg.length + 1 = 1 + seg.length := by omega
  rw [e1] at hloop
  have hr : 1 < path.length := by omega
  have hw : ¬ (path.length - 1 = 0) := by omega
  have htake : path.take (path.length - 1) = joinSegs (seg :: rest) := by
    rw [← hpath]
    simp
  simp only [Clean, if_neg hp, h0, decide_True, if_true, lazy_append h0, Option.map_some']
  rw [hf]
  simp only [cleanLoop, if_pos hr, hstep, hloop]
  simp only [if_neg hw, lazybuf.string, htake]
  rw [if_pos (Nat.sub_le _ _)]

theorem Clean_slash : Clean [slash] = some [slash] := by decide

/-! ### `Split`, `Dir` and `Base` -/

theorem LastIndexByteString_go_last (pre M : GoString) (hM : slash ∉ M) :
    ∀ k, k ≤ M.length →
      LastIndexByteString.go (pre ++ slash :: M) slash (pre.length + 1 + k) = (pre.length : Int) := by
  intro k
  induction k with
  | zero =>
    intro _
    have h : (pre ++ slash :: M)[pre.length]? = some slash := by
      rw [List.getElem?_append_right (le_refl _)]
      simp
    simp only [Nat.add_zero, LastIndexByteString.go, h, if_true]
  | succ k ih =>
    intro hk
    have hk2 : k < M.length := by omega
    have h : (pre ++ slash :: M)[pre.length + 1 + k]? = some M[k] := by
      rw [List.getElem?_append_right (by omega)]
      have e : pre.length + 1 + k - pre.length = k + 1 := by omega
      rw [e]
      simp [List.getElem?_eq_getElem hk2]
    have hne : ¬ (some M[k] = some slash) := by
      intro he
      exact hM (by rw [← Option.some.inj he]; exact List.getElem_mem _)
    have e2 : pre.length + 1 + (k + 1) = (pre.length + 1 + k) + 1 := by omega
    rw [e2]
    simp only [LastIndexByteString.go, h, if_neg hne]
    exact ih (by omega)

theorem LastIndexByteString_last (pre M : GoString) (hM : slash ∉ M) :
    LastIndexByteString (pre ++ slash :: M) slash = (pre.length : Int) := by
  have h := LastIndexByteString_go_last pre M hM M.length (le_refl _)
  have e : (pre ++ slash :: M).length = pre.length + 1 + M.length := by simp; omega
  rw [LastIndexByteString, e]
  exact h

theorem Split_last (pre M : GoString) (hM : slash ∉ M) :
    Split (pre ++ slash :: M) = (pre ++ [slash], M) := by
  have e : ((pre.length : Int) + 1).toNat = (pre ++ [slash]).length := by
    simp
  have e2 : pre ++ slash :: M = (pre ++ [slash]) ++ M := by simp
  simp only [Split, LastIndexByteString_last pre M hM]
  rw [e, e2, List.take_left, List.drop_left]

theorem stripTrailingSlashes_id (path : GoString) (c : Nat) (hc : c ≠ slash)
    (hl : path[path.length - 1]? = some c) (fuel : Nat) :
    stripTrailingSlashes fuel path = path := by
  cases fuel with
  | zero => rfl
  | succ f =>
    have h : ¬ (0 < path.length ∧ path[path.length - 1]? = some slash) := by
      rintro ⟨_, h2⟩
      rw [hl] at h2
      exact hc (Option.some.inj h2)
    simp only [stripTrailingSlashes, if_neg h]

theorem Base_last (pre M : GoString) (hM : slash ∉ M) (hne : M ≠ []) :
    Base (pre ++ slash :: M) = M := by
  have hp : pre ++ slash :: M ≠ [] := by simp
  obtain ⟨c, hc⟩ : ∃ c, (pre ++ slash :: M)[(pre ++ slash :: M).length - 1]? = some c := by
    have hl : (pre ++ slash :: M).length - 1 < (pre ++ slash :: M).length := by simp
    exact ⟨_, List.getElem?_eq_getElem hl⟩
  have hcs : c ≠ slash := by
    intro h
    have hml : 0 < M.length := List.length_pos.mpr hne
    have e : (pre ++ slash :: M).length - 1 = pre.length + 1 + (M.length - 1) := by
      simp; omega
    rw [e, List.getElem?_append_right (by omega)] at hc
    have e3 : pre.length + 1 + (M.length - 1) - pre.length = (M.length - 1) + 1 := by omega
    rw [e3] at hc
    simp at hc
    have hmem : c ∈ M := by
      obtain ⟨_, h4⟩ := List.getElem?_eq_some.mp hc
      rw [← h4]
      exact List.getElem_mem _
    exact hM (h ▸ hmem)
  have hi : (pre.length : Int) ≥ 0 := Int.ofNat_nonneg _
  have e : ((pre.length : Int) + 1).toNat = (pre ++ [slash]).length := by
    simp
  have e2 : pre ++ slash :: M = (pre ++ [slash]) ++ M := by simp
  simp only [Base, if_neg hp, stripTrailingSlashes_id _ c hcs hc,
    LastIndexByteString_last pre M hM, if_pos hi]
  rw [e, e2, List.drop_left, if_neg hne]

/-- Function `Dir` on `/s1/.../sk/M`, the `si` clean and `M` without a slash: the
path `/s1/.../sk`, or `/` when there is no `si`. -/
theorem Dir_clean (segs : List GoString) (M : GoString) (hall : ∀ seg ∈ segs, CleanSeg seg)
    (hM : slash ∉ M) :
    Dir (joinSegs segs ++ slash :: M) = some (if segs = [] then [slash] else joinSegs segs) := by
  rw [Dir, Split_last _ _ hM]
  by_cases hs : segs = []
  · rw [if_pos hs, hs]
    exact Clean_slash
  · rw [if_neg hs]
    exact Clean_joinSegs segs hall hs

/-! ## `path.Dir`, log fields and the interceptors -/

/-- Function `path.Dir` returns for every input, and never the empty string. -/
theorem Dir_total (path : GoString) : ∃ dir, Dir path = some dir ∧ dir ≠ [] :=
  Clean_total (Split path).1

theorem sliceFrom_one {dir : GoString} (h : dir ≠ []) : sliceFrom dir 1 = some (dir.drop 1) := by
  have hl : 1 ≤ dir.length := List.length_pos.mpr h
  simp only [sliceFrom, if_pos hl]

theorem Fields.get?_set_self (f : Fields) (k : String) (v : Value) :
    Fields.get? (Fields.set f k v) k = some v := by
  induction f with
  | nil => simp [Fields.set, Fields.get?]
  | cons p rest ih =>
    obtain ⟨k1, v1⟩ := p
    by_cases h : k1 = k
    · simp [Fields.set, Fields.get?, h]
    · simp [Fields.set, Fields.get?, h, ih]

theorem Fields.get?_set_ne (f : Fields) (k k2 : String) (v : Value) (hne : k ≠ k2) :
    Fields.get? (Fields.set f k v) k2 = Fields.get? f k2 := by
  induction f with
  | nil => simp [Fields.set, Fields.get?, hne]
  | cons p rest ih =>
    obtain ⟨k1, v1⟩ := p
    by_cases h : k1 = k
    · have h2 : k1 ≠ k2 := by rw [h]; exact hne
      simp [Fields.set, Fields.get?, h, hne, h2]
    · by_cases h3 : k1 = k2
      · simp only [Fields.set, Fields.get?, if_neg h, if_pos h3]
      · simp only [Fields.set, Fields.get?, if_neg h, if_neg h3, ih]

/-- The six fields that `clientLoggerFields` always sets. -/
theorem clientLoggerFields_spec (env : Env σ) (s : σ) (ctx : Context) (fullMethodString : GoString)
    (resp : Reply σ) (err : Option GoError) (code : Code) (start : Int) :
    ∃ dir fields, Dir fullMethodString = some dir ∧ dir ≠ [] ∧
      clientLoggerFields env s ctx fullMethodString resp err code start = some fields ∧
      Fields.get? fields "system" = some (.str (lit "grpc")) ∧
      Fields.get? fields "span.kind" = some (.str (lit "client")) ∧
      Fields.get? fields "grpc.service" = some (.str (dir.drop 1)) ∧
      Fields.get? fields "grpc.method" = some (.str (Base fullMethodString)) ∧
      Fields.get? fields "grpc.duration" = some (.duration (env.now s - start)) ∧
      Fields.get? fields "grpc.code" = some (.str (lit (Code.String code))) ∧
      Fields.get? fields "ctx_id" =
        (resp.GetContextId.map (fun getter => Value.uuid (copy (List.replicate 16 0) (getter s)))) ∧
      Fields.get? fields ErrorKey = err.map Value.error := by
  obtain ⟨dir, hd, hne⟩ := Dir_total fullMethodString
  refine ⟨dir, ?_⟩
  simp only [clientLoggerFields, hd, sliceFrom_one hne, timeSince]
  cases hg : resp.GetContextId <;> cases he : err <;>
    simp [hne, Fields.get?_set_ne, Fields.get?_set_self, Fields.get?, Fields.set, ErrorKey]

/-! ## Traces -/

theorem invokerCalls_append (a b : List (Event σ)) :
    invokerCalls (a ++ b) = invokerCalls a ++ invokerCalls b := by
  induction a with
  | nil => rfl
  | cons e rest ih => cases e <;> simp [invokerCalls, ih]

theorem handlerCalls_append (a b : List (Event σ)) :
    handlerCalls (a ++ b) = handlerCalls a ++ handlerCalls b := by
  induction a with
  | nil => rfl
  | cons e rest ih => cases e <;> simp [handlerCalls, ih]

theorem logCalls_append (a b : List (Event σ)) :
    logCalls (a ++ b) = logCalls a ++ logCalls b := by
  induction a with
  | nil => rfl
  | cons e rest ih => cases e <;> simp [logCalls, ih]

theorem logRecords_append (a b : List (Event σ)) :
    logRecords (a ++ b) = logRecords a ++ logRecords b := by
  induction a with
  | nil => rfl
  | cons e rest ih => cases e <;> simp [logRecords, ih]

/-! ## Levels -/

/-- The default mapping yields info, warning or error, and no other level. -/
theorem DefaultCodeToLevel_range (code : Code) :
    DefaultCodeToLevel code = InfoLevel ∨ DefaultCodeToLevel code = WarnLevel ∨
      DefaultCodeToLevel code = ErrorLevel := by
  unfold DefaultCodeToLevel
  split <;> simp

theorem Logf_above_panic (entry : Entry σ) (level : Level) (format : String)
    (args : List Value) (w : World σ) (h : ¬ level ≤ PanicLevel) :
    entry.Logf level format args (logCall entry level format args w)
      = (Outcome.ok (), { w with trace := w.trace ++ logEvents entry level format args w.ext }) := by
  by_cases hl : entry.Logger.level w.ext ≥ level
  · simp [Entry.Logf, Entry.log, logCall, Logger.IsLevelEnabled, logEvents, hl, h]
  · simp [Entry.Logf, logCall, Logger.IsLevelEnabled, logEvents, hl]

/-- Function `levelLogf` at one of its six levels makes one logging call, at that
level, on the entry it was given. -/
theorem levelLogf_six (entry : Entry σ) (level : Level) (format : String) (args : List Value)
    (w : World σ)
    (h : level = DebugLevel ∨ level = InfoLevel ∨ level = WarnLevel ∨ level = ErrorLevel ∨
      level = FatalLevel ∨ level = PanicLevel) :
    logCalls (levelLogf entry level format args w).2.trace
      = logCalls w.trace ++
        [{ level := level, data := entry.Data, format := format, args := args }] := by
  rcases h with h | h | h | h | h | h <;> subst h
  · simp [levelLogf, Entry.Debugf, Logf_above_panic, logEvents, logCalls_append, logCalls]
    split <;> simp [logCalls]
  · simp [levelLogf, Entry.Infof, Logf_above_panic, logEvents, logCalls_append, logCalls]
    split <;> simp [logCalls]
  · simp [levelLogf, Entry.Warningf, Logf_above_panic, logEvents, logCalls_append, logCalls]
    split <;> simp [logCalls]
  · simp [levelLogf, Entry.Errorf, Logf_above_panic, logEvents, logCalls_append, logCalls]
    split <;> simp [logCalls]
  · simp [levelLogf, Entry.Fatalf, Logf_above_panic, logEvents, logCalls_append, logCalls]
    split <;> simp [logCalls]
  · simp [levelLogf, Entry.Panicf, Entry.Logf, Entry.log, logCall, Logger.IsLevelEnabled,
      logCalls_append, logCalls]

/-- Function `levelLogf` at info, warning or error returns after its logging call. -/
theorem levelLogf_returns (entry : Entry σ) (level : Level) (format : String)
    (args : List Value) (w : World σ)
    (h : level = InfoLevel ∨ level = WarnLevel ∨ level = ErrorLevel) :
    levelLogf entry level format args w
      = (Outcome.ok (),
         { w with trace := w.trace ++ logEvents entry level format args w.ext }) := by
  rcases h with h | h | h <;> subst h
  · simp [levelLogf, Entry.Infof, Logf_above_panic]
  · simp [levelLogf, Entry.Warningf, Logf_above_panic]
  · simp [levelLogf, Entry.Errorf, Logf_above_panic]

/-! ## The client interceptor, step by step -/

/-- A run of `UnaryClientCtxIDInterceptor`: the invoker is called, the fields are
built in the state the invoker leaves, one logging call is made at the level of
the status code, and the error of the invoker is returned. -/
theorem UnaryClientCtxIDInterceptor_run (env : Env σ) (ctx : Context) (method : GoString)
    (req : Value) (reply : Reply σ) (cc : Value) (invoker : Invoker σ) (opts : List Value)
    (w : World σ) :
    ∃ fields,
      clientLoggerFields env (invoker ⟨ctx, method, req, reply, cc, opts⟩ w.ext).2 ctx method reply
          (invoker ⟨ctx, method, req, reply, cc, opts⟩ w.ext).1
          (env.DefaultErrorToCode (invoker ⟨ctx, method, req, reply, cc, opts⟩ w.ext).1)
          (env.now w.ext) = some fields ∧
      UnaryClientCtxIDInterceptor env ctx method req reply cc invoker opts w
        = (Outcome.ok (invoker ⟨ctx, method, req, reply, cc, opts⟩ w.ext).1,
           { ext := (invoker ⟨ctx, method, req, reply, cc, opts⟩ w.ext).2,
             trace := w.trace ++ [Event.invoker ⟨ctx, method, req, reply, cc, opts⟩] ++
               logEvents (WithFields env fields)
                 (DefaultCodeToLevel
                   (env.DefaultErrorToCode (invoker ⟨ctx, method, req, reply, cc, opts⟩ w.ext).1))
                 "finished client unary call" []
                 (invoker ⟨ctx, method, req, reply, cc, opts⟩ w.ext).2 }) := by
  obtain ⟨dir, fields, _, _, hf, _⟩ :=
    clientLoggerFields_spec env (invoker ⟨ctx, method, req, reply, cc, opts⟩ w.ext).2 ctx method
      reply (invoker ⟨ctx, method, req, reply, cc, opts⟩ w.ext).1
      (env.DefaultErrorToCode (invoker ⟨ctx, method, req, reply, cc, opts⟩ w.ext).1)
      (env.now w.ext)
  refine ⟨fields, hf, ?_⟩
  have hl := levelLogf_returns (WithFields env fields)
    (DefaultCodeToLevel (env.DefaultErrorToCode (invoker ⟨ctx, method, req, reply, cc, opts⟩ w.ext).1))
    "finished client unary call" []
    (callInvoker invoker ⟨ctx, method, req, reply, cc, opts⟩ w).2 (DefaultCodeToLevel_range _)
  simp only [UnaryClientCtxIDInterceptor]
  simp only [callInvoker] at hl ⊢
  rw [hf]
  simp only []
  rw [hl]

/-- C1: for every invoker and every call, `UnaryClientCtxIDInterceptor` returns
normally with exactly the error value the invoker returned (`nil` for `nil`, the
same error otherwise), and it calls the invoker exactly once, with exactly the
context, method, request, reply, connection and options it was given; the
level of the log record comes from the default code-to-level mapping. -/
theorem UnaryClientCtxIDInterceptor_returns_invoker_error (env : Env σ) (ctx : Context)
    (method : GoString) (req : Value) (reply : Reply σ) (cc : Value) (invoker : Invoker σ)
    (opts : List Value) (w : World σ) :
    (UnaryClientCtxIDInterceptor env ctx method req reply cc invoker opts w).1
        = Outcome.ok (invoker ⟨ctx, method, req, reply, cc, opts⟩ w.ext).1 ∧
      invokerCalls (UnaryClientCtxIDInterceptor env ctx method req reply cc invoker opts w).2.trace
        = invokerCalls w.trace ++ [⟨ctx, method, req, reply, cc, opts⟩] ∧
      (UnaryClientCtxIDInterceptor env ctx method req reply cc invoker opts w).2.ext
        = (invoker ⟨ctx, method, req, reply, cc, opts⟩ w.ext).2 := by
  obtain ⟨fields, _, hrun⟩ :=
    UnaryClientCtxIDInterceptor_run env ctx method req reply cc invoker opts w
  rw [hrun]
  refine ⟨rfl, ?_, rfl⟩
  simp only [invokerCalls_append, logEvents]
  split <;> simp [invokerCalls]

/-- C4 as stated fails when the standard logger is at error level and the call
succeeds: the status code `OK` maps to info level, the logging call `Infof` is
made, and logrus emits no record. -/
theorem UnaryClientCtxIDInterceptor_log_record_counterexample :
    (UnaryClientCtxIDInterceptor quietEnv Context.background (lit "/my.pkg.Service/DoThing")
        (Value.obj 1) plainReply (Value.obj 3) okInvoker [] startWorld).1 = Outcome.ok none ∧
      logCalls (UnaryClientCtxIDInterceptor quietEnv Context.background
        (lit "/my.pkg.Service/DoThing") (Value.obj 1) plainReply (Value.obj 3) okInvoker []
        startWorld).2.trace
        = [{ level := InfoLevel,
             data :=
               [("system", Value.str (lit "grpc")), ("span.kind", Value.str (lit "client")),
                ("grpc.service", Value.str (lit "my.pkg.Service")),
                ("grpc.method", Value.str (lit "DoThing")),
                ("grpc.duration", Value.duration 5), ("grpc.code", Value.str (lit "OK"))],
             format := "finished client unary call",
             args := [] }] ∧
      quietEnv.std.level 5 = ErrorLevel ∧
      logRecords (UnaryClientCtxIDInterceptor quietEnv Context.background
        (lit "/my.pkg.Service/DoThing") (Value.obj 1) plainReply (Value.obj 3) okInvoker []
        startWorld).2.trace = [] := by
  refine ⟨?_, ?_, ?_, ?_⟩ <;> decide

/-- C4, as the code has it: for every outbound call, whatever the invoker
returns, `UnaryClientCtxIDInterceptor` makes exactly one logging call, through
the method of the level that `DefaultCodeToLevel` assigns to the status code of
the error of the invoker (one of the six levels that `levelLogf` routes to the
like-named logging call), with the format "finished client unary call", no
argument, and an entry that holds the fields built by `clientLoggerFields` for
the call.  When the level of the standard logger admits that level (it does
at info level, which logrus starts with), exactly one log record is emitted, with
that level, those fields and that message; otherwise none is emitted. -/
theorem UnaryClientCtxIDInterceptor_log_record (env : Env σ) (ctx : Context)
    (method : GoString) (req : Value) (reply : Reply σ) (cc : Value) (invoker : Invoker σ)
    (opts : List Value) (w : World σ) :
    ∃ fields,
      clientLoggerFields env (invoker ⟨ctx, method, req, reply, cc, opts⟩ w.ext).2 ctx method reply
          (invoker ⟨ctx, method, req, reply, cc, opts⟩ w.ext).1
          (env.DefaultErrorToCode (invoker ⟨ctx, method, req, reply, cc, opts⟩ w.ext).1)
          (env.now w.ext) = some fields ∧
      logCalls (UnaryClientCtxIDInterceptor env ctx method req reply cc invoker opts w).2.trace
        = logCalls w.trace ++
          [{ level := DefaultCodeToLevel
               (env.DefaultErrorToCode (invoker ⟨ctx, method, req, reply, cc, opts⟩ w.ext).1),
             data := fields,
             format := "finished client unary call",
             args := [] }] ∧
      (DefaultCodeToLevel
          (env.DefaultErrorToCode (invoker ⟨ctx, method, req, reply, cc, opts⟩ w.ext).1)
          ≤ env.std.level (invoker ⟨ctx, method, req, reply, cc, opts⟩ w.ext).2 →
        logRecords
            (UnaryClientCtxIDInterceptor env ctx method req reply cc invoker opts w).2.trace
          = logRecords w.trace ++
            [{ level := DefaultCodeToLevel
                 (env.DefaultErrorToCode
                   (invoker ⟨ctx, method, req, reply, cc, opts⟩ w.ext).1),
               data := fields,
               format := "finished client unary call",
               args := [] }]) ∧
      (env.std.level (invoker ⟨ctx, method, req, reply, cc, opts⟩ w.ext).2
          < DefaultCodeToLevel
            (env.DefaultErrorToCode (invoker ⟨ctx, method, req, reply, cc, opts⟩ w.ext).1) →
        logRecords
            (UnaryClientCtxIDInterceptor env ctx method req reply cc invoker opts w).2.trace
          = logRecords w.trace) ∧
      (InfoLevel ≤ env.std.level (invoker ⟨ctx, method, req, reply, cc, opts⟩ w.ext).2 →
        DefaultCodeToLevel
            (env.DefaultErrorToCode (invoker ⟨ctx, method, req, reply, cc, opts⟩ w.ext).1)
          ≤ env.std.level (invoker ⟨ctx, method, req, reply, cc, opts⟩ w.ext).2) ∧
      DefaultCodeToLevel
          (env.DefaultErrorToCode (invoker ⟨ctx, method, req, reply, cc, opts⟩ w.ext).1)
        ∈ [DebugLevel, InfoLevel, WarnLevel, ErrorLevel, FatalLevel, PanicLevel] ∧
      ∀ (entry : Entry σ) (format : String) (args : List Value) (w0 : World σ),
        logCalls (levelLogf entry DebugLevel format args w0).2.trace
            = logCalls w0.trace ++ [⟨DebugLevel, entry.Data, format, args⟩] ∧
          logCalls (levelLogf entry InfoLevel format args w0).2.trace
            = logCalls w0.trace ++ [⟨InfoLevel, entry.Data, format, args⟩] ∧
          logCalls (levelLogf entry WarnLevel format args w0).2.trace
            = logCalls w0.trace ++ [⟨WarnLevel, entry.Data, format, args⟩] ∧
          logCalls (levelLogf entry ErrorLevel format args w0).2.trace
            = logCalls w0.trace ++ [⟨ErrorLevel, entry.Data, format, args⟩] ∧
          logCalls (levelLogf entry FatalLevel format args w0).2.trace
            = logCalls w0.trace ++ [⟨FatalLevel, entry.Data, format, args⟩] ∧
          logCalls (levelLogf entry PanicLevel format args w0).2.trace
            = logCalls w0.trace ++ [⟨PanicLevel, entry.Data, format, args⟩] := by
  obtain ⟨fields, hf, hrun⟩ :=
    UnaryClientCtxIDInterceptor_run env ctx method req reply cc invoker opts w
  have hrange := DefaultCodeToLevel_range
    (env.DefaultErrorToCode (invoker ⟨ctx, method, req, reply, cc, opts⟩ w.ext).1)
  refine ⟨fields, hf, ?_, ?_, ?_, ?_, ?_, ?_⟩
  · rw [hrun]
    simp only [logCalls_append, logEvents]
    split <;> simp [logCalls, WithFields]
  · intro hle
    rw [hrun]
    simp only [logRecords_append, logEvents, WithFields]
    rw [if_pos hle]
    simp [logRecords]
  · intro hlt
    rw [hrun]
    simp only [logRecords_append, logEvents, WithFields]
    rw [if_neg (Nat.not_le.mpr hlt)]
    simp [logRecords]
  · intro hinfo
    rcases hrange with h | h | h <;> rw [h]
    · exact hinfo
    · exact Nat.le_trans (by decide) hinfo
    · exact Nat.le_trans (by decide) hinfo
  · rcases hrange with h | h | h <;> rw [h] <;> simp
  · intro entry format args w0
    refine ⟨?_, ?_, ?_, ?_, ?_, ?_⟩ <;> exact levelLogf_six _ _ _ _ _ (by simp)

/-! ## The server interceptor -/

/-- C2: when `uuid.NewV4` returns an error `e`, `UnaryServerCtxIDInterceptor`
does not call the handler (it makes no call at all) and returns a `nil` response
with the error `errors.Wrap(e, "new uuid error")`: its message is
"new uuid error: " followed by the message of `e`, and the cause it wraps is `e`. -/
theorem UnaryServerCtxIDInterceptor_uuid_error (env : Env σ) (ctx : Context) (req info : Value)
    (handler : Handler σ) (w : World σ) (id : UUID) (e : GoError) (s1 : σ)
    (h : env.NewV4 w.ext = ((id, some e), s1)) :
    ∃ werr,
      (UnaryServerCtxIDInterceptor env ctx req info handler w).1 = (none, some werr) ∧
      Wrap (some e) "new uuid error" = some werr ∧
      werr.Error = "new uuid error: " ++ e.Error ∧
      werr.Cause.bind GoError.Cause = some e ∧
      errorsCause werr = errorsCause e ∧
      (UnaryServerCtxIDInterceptor env ctx req info handler w).2.trace = w.trace ∧
      handlerCalls (UnaryServerCtxIDInterceptor env ctx req info handler w).2.trace
        = handlerCalls w.trace := by
  refine ⟨GoError.withStack (GoError.withMessage e "new uuid error"), ?_, rfl, rfl, rfl, rfl, ?_, ?_⟩ <;>
    simp [UnaryServerCtxIDInterceptor, h, Wrap]

theorem UnaryServerCtxIDInterceptor_uuid_error_witness :
    ∃ werr,
      (UnaryServerCtxIDInterceptor noEntropyEnv Context.background (Value.obj 1) (Value.obj 2)
          echoHandler startWorld).1 = (none, some werr) ∧
      Wrap (some (GoError.leaf 1 "EOF")) "new uuid error" = some werr ∧
      werr.Error = "new uuid error: " ++ (GoError.leaf 1 "EOF").Error ∧
      werr.Cause.bind GoError.Cause = some (GoError.leaf 1 "EOF") ∧
      errorsCause werr = errorsCause (GoError.leaf 1 "EOF") ∧
      (UnaryServerCtxIDInterceptor noEntropyEnv Context.background (Value.obj 1) (Value.obj 2)
          echoHandler startWorld).2.trace = startWorld.trace ∧
      handlerCalls (UnaryServerCtxIDInterceptor noEntropyEnv Context.background (Value.obj 1)
          (Value.obj 2) echoHandler startWorld).2.trace = handlerCalls startWorld.trace :=
  UnaryServerCtxIDInterceptor_uuid_error noEntropyEnv Context.background (Value.obj 1)
    (Value.obj 2) echoHandler startWorld (List.replicate 16 0)
    (GoError.leaf 1 "EOF") 0 rfl

/-- C3: when `uuid.NewV4` succeeds with the identifier `id`,
`UnaryServerCtxIDInterceptor` calls the handler exactly once, with the original
request and with a context in which `ContextIDKey` yields `id` and every other
key yields what the parent context yields, and it returns exactly the response
and the error of the handler. -/
theorem UnaryServerCtxIDInterceptor_calls_handler (env : Env σ) (ctx : Context)
    (req info : Value) (handler : Handler σ) (w : World σ) (id : UUID) (s1 : σ)
    (h : env.NewV4 w.ext = ((id, none), s1)) :
    ∃ ctx1 : Context,
      handlerCalls (UnaryServerCtxIDInterceptor env ctx req info handler w).2.trace
        = handlerCalls w.trace ++ [(ctx1, req)] ∧
      ctx1.Value ContextIDKey = some (Value.uuid id) ∧
      (∀ key, key ≠ ContextIDKey → ctx1.Value key = ctx.Value key) ∧
      (UnaryServerCtxIDInterceptor env ctx req info handler w).1
        = (handler ctx1 req (env.AddFields ctx1 [("ctx_id", Value.uuid id)] s1)).1 ∧
      (UnaryServerCtxIDInterceptor env ctx req info handler w).2.ext
        = (handler ctx1 req (env.AddFields ctx1 [("ctx_id", Value.uuid id)] s1)).2 := by
  refine ⟨Context.withValue ctx ContextIDKey (Value.uuid id), ?_, ?_, ?_, ?_, ?_⟩
  · simp [UnaryServerCtxIDInterceptor, h, callHandler, AddFields, handlerCalls_append,
      handlerCalls]
  · simp [Context.Value]
  · intro key hk
    simp only [Context.Value, if_neg (Ne.symm hk)]
  · simp [UnaryServerCtxIDInterceptor, h, callHandler, AddFields]
  · simp [UnaryServerCtxIDInterceptor, h, callHandler, AddFields]

theorem UnaryServerCtxIDInterceptor_calls_handler_witness :
    ∃ ctx1 : Context,
      handlerCalls (UnaryServerCtxIDInterceptor counterEnv Context.background (Value.obj 1)
          (Value.obj 2) echoHandler startWorld).2.trace
        = handlerCalls startWorld.trace ++ [(ctx1, Value.obj 1)] ∧
      ctx1.Value ContextIDKey = some (Value.uuid (List.replicate 16 7)) ∧
      (∀ key, key ≠ ContextIDKey → ctx1.Value key = Context.background.Value key) ∧
      (UnaryServerCtxIDInterceptor counterEnv Context.background (Value.obj 1) (Value.obj 2)
          echoHandler startWorld).1
        = (echoHandler ctx1 (Value.obj 1)
            (counterEnv.AddFields ctx1 [("ctx_id", Value.uuid (List.replicate 16 7))] 0)).1 ∧
      (UnaryServerCtxIDInterceptor counterEnv Context.background (Value.obj 1) (Value.obj 2)
          echoHandler startWorld).2.ext
        = (echoHandler ctx1 (Value.obj 1)
            (counterEnv.AddFields ctx1 [("ctx_id", Value.uuid (List.replicate 16 7))] 0)).2 :=
  UnaryServerCtxIDInterceptor_calls_handler counterEnv Context.background (Value.obj 1)
    (Value.obj 2) echoHandler startWorld (List.replicate 16 7) 0 rfl

/-! ## The words of the specification, on a string with a last slash -/

theorem afterLastSlash_last (pre M : GoString) (hM : slash ∉ M) :
    afterLastSlash (pre ++ slash :: M) = M := by
  have hall : ∀ a ∈ M.reverse, (fun c => decide (c ≠ slash)) a = true := by
    intro a ha
    have : a ≠ slash := fun h => hM (h ▸ List.mem_reverse.mp ha)
    simpa using this
  have hr : (pre ++ slash :: M).reverse = M.reverse ++ slash :: pre.reverse := by simp
  rw [afterLastSlash, hr, List.takeWhile_append_of_pos hall,
    List.takeWhile_cons_of_neg (by simp)]
  simp

theorem beforeLastSlash_last (pre M : GoString) (hM : slash ∉ M) :
    beforeLastSlash (pre ++ slash :: M) = pre := by
  have hall : ∀ a ∈ M.reverse, (fun c => decide (c ≠ slash)) a = true := by
    intro a ha
    have : a ≠ slash := fun h => hM (h ▸ List.mem_reverse.mp ha)
    simpa using this
  have hr : (pre ++ slash :: M).reverse = M.reverse ++ slash :: pre.reverse := by simp
  rw [beforeLastSlash, hr, List.dropWhile_append_of_pos hall,
    List.dropWhile_cons_of_neg (by simp)]
  simp

theorem stripLeadingSlash_joinSegs (segs : List GoString) :
    stripLeadingSlash (joinSegs segs) = (joinSegs segs).drop 1 := by
  cases segs with
  | nil => rfl
  | cons seg rest => simp [joinSegs, stripLeadingSlash]

theorem copy_zero16 (b : GoString) :
    copy (List.replicate 16 0) b = b.take 16 ++ List.replicate (16 - b.length) 0 := by
  simp only [copy, List.length_replicate, List.drop_replicate]
  congr 2
  omega

theorem copy_zero16_length (b : GoString) : (copy (List.replicate 16 0) b).length = 16 := by
  rw [copy_zero16]
  simp only [List.length_append, List.length_take, List.length_replicate]
  omega

/-! ## The fields of the client log record -/

/-- C5, as the code has it: for every `fullMethod` of the form `/s1/.../sk/M`
(with `k` zero or more), where the `si` are not empty, contain no slash and are
neither `.` nor `..`, and `M` is not empty and contains no slash, the field
`grpc.service` is the part of `fullMethod` before its last slash with the
leading slash stripped, and `grpc.method` is the part after its last slash. -/
theorem clientLoggerFields_service_method (env : Env σ) (s : σ) (ctx : Context)
    (resp : Reply σ) (err : Option GoError) (code : Code) (start : Int)
    (segs : List GoString) (M : GoString) (hsegs : ∀ seg ∈ segs, CleanSeg seg)
    (hM : M ≠ []) (hMs : slash ∉ M) :
    ∃ fields,
      clientLoggerFields env s ctx (joinSegs segs ++ slash :: M) resp err code start
        = some fields ∧
      Fields.get? fields "grpc.service"
        = some (Value.str (stripLeadingSlash (beforeLastSlash (joinSegs segs ++ slash :: M)))) ∧
      Fields.get? fields "grpc.method"
        = some (Value.str (afterLastSlash (joinSegs segs ++ slash :: M))) := by
  obtain ⟨dir, fields, hd, _, hf, _, _, hsvc, hmeth, _⟩ :=
    clientLoggerFields_spec env s ctx (joinSegs segs ++ slash :: M) resp err code start
  refine ⟨fields, hf, ?_, ?_⟩
  · rw [hsvc, beforeLastSlash_last _ _ hMs, stripLeadingSlash_joinSegs]
    rw [Dir_clean segs M hsegs hMs] at hd
    have hdir : dir = if segs = [] then [slash] else joinSegs segs := (Option.some.inj hd).symm
    by_cases hs : segs = []
    · rw [hdir, if_pos hs, hs]
      rfl
    · rw [hdir, if_neg hs]
  · rw [hmeth, afterLastSlash_last _ _ hMs, Base_last _ _ hMs hM]

theorem clientLoggerFields_service_method_witness :
    ∃ fields,
      clientLoggerFields counterEnv 0 Context.background
          (joinSegs [lit "v1", lit "pkg.Service"] ++ slash :: lit "Do") plainReply none 0 0
        = some fields ∧
      Fields.get? fields "grpc.service"
        = some (Value.str (stripLeadingSlash (beforeLastSlash
            (joinSegs [lit "v1", lit "pkg.Service"] ++ slash :: lit "Do")))) ∧
      Fields.get? fields "grpc.method"
        = some (Value.str (afterLastSlash
            (joinSegs [lit "v1", lit "pkg.Service"] ++ slash :: lit "Do"))) :=
  clientLoggerFields_service_method counterEnv 0 Context.background plainReply none 0 0
    [lit "v1", lit "pkg.Service"] (lit "Do") (by decide) (by decide) (by decide)

/-- C5 as stated fails on three strings.  Without a leading slash the first byte
of the directory is dropped all the same; a final slash is stripped before the
method is taken; and an empty element is cleaned away from the service. -/
theorem clientLoggerFields_service_method_counterexample :
    (clientLoggerFields counterEnv 0 Context.background (lit "pkg.Service/Method") plainReply
        none 0 0
      = some [("system", Value.str (lit "grpc")), ("span.kind", Value.str (lit "client")),
          ("grpc.service", Value.str (lit "kg.Service")),
          ("grpc.method", Value.str (lit "Method")),
          ("grpc.duration", Value.duration 0), ("grpc.code", Value.str (lit "OK"))] ∧
      stripLeadingSlash (beforeLastSlash (lit "pkg.Service/Method")) = lit "pkg.Service" ∧
      lit "kg.Service" ≠ lit "pkg.Service") ∧
    (clientLoggerFields counterEnv 0 Context.background (lit "/Svc/Method/") plainReply
        none 0 0
      = some [("system", Value.str (lit "grpc")), ("span.kind", Value.str (lit "client")),
          ("grpc.service", Value.str (lit "Svc/Method")),
          ("grpc.method", Value.str (lit "Method")),
          ("grpc.duration", Value.duration 0), ("grpc.code", Value.str (lit "OK"))] ∧
      afterLastSlash (lit "/Svc/Method/") = lit "" ∧
      lit "Method" ≠ lit "") ∧
    (clientLoggerFields counterEnv 0 Context.background (lit "/a//Method") plainReply
        none 0 0
      = some [("system", Value.str (lit "grpc")), ("span.kind", Value.str (lit "client")),
          ("grpc.service", Value.str (lit "a")),
          ("grpc.method", Value.str (lit "Method")),
          ("grpc.duration", Value.duration 0), ("grpc.code", Value.str (lit "OK"))] ∧
      stripLeadingSlash (beforeLastSlash (lit "/a//Method")) = lit "a/" ∧
      lit "a" ≠ lit "a/") := by
  refine ⟨⟨?_, ?_, ?_⟩, ⟨?_, ?_, ?_⟩, ⟨?_, ?_, ?_⟩⟩ <;> decide

/-- C6: for every `fullMethod` of the standard form `"/" ++ S ++ "/" ++ M`, where
`S` and `M` are not empty and contain no slash and `S` is neither `.` nor `..`,
`clientLoggerFields` yields `grpc.service` = `S` and `grpc.method` = `M`. -/
theorem clientLoggerFields_standard_form (env : Env σ) (s : σ) (ctx : Context)
    (resp : Reply σ) (err : Option GoError) (code : Code) (start : Int) (S M : GoString)
    (hS : S ≠ []) (hM : M ≠ []) (hSs : slash ∉ S) (hMs : slash ∉ M)
    (hd : S ≠ [dot]) (hdd : S ≠ [dot, dot]) :
    ∃ fields,
      clientLoggerFields env s ctx (slash :: (S ++ slash :: M)) resp err code start
        = some fields ∧
      Fields.get? fields "grpc.service" = some (Value.str S) ∧
      Fields.get? fields "grpc.method" = some (Value.str M) := by
  obtain ⟨dir, fields, hdir, _, hf, _, _, hsvc, hmeth, _⟩ :=
    clientLoggerFields_spec env s ctx (slash :: (S ++ slash :: M)) resp err code start
  have hform : slash :: (S ++ slash :: M) = joinSegs [S] ++ slash :: M := by
    simp [joinSegs]
  have hall : ∀ seg ∈ [S], CleanSeg seg := by
    intro seg hseg
    rw [List.mem_singleton.mp hseg]
    exact ⟨hS, hSs, hd, hdd⟩
  refine ⟨fields, hf, ?_, ?_⟩
  · rw [hform, Dir_clean [S] M hall hMs] at hdir
    have h2 : dir = joinSegs [S] := by
      have := (Option.some.inj hdir).symm
      simpa using this
    rw [hsvc, h2]
    simp [joinSegs]
  · rw [hmeth, hform, Base_last _ _ hMs hM]

/-- The instance of C6 named in the claim: `"/my.pkg.Service/DoThing"` yields the
service `"my.pkg.Service"` and the method `"DoThing"`. -/
theorem clientLoggerFields_standard_form_witness :
    ∃ fields,
      clientLoggerFields counterEnv 0 Context.background (lit "/my.pkg.Service/DoThing")
          plainReply none 0 0 = some fields ∧
      Fields.get? fields "grpc.service" = some (Value.str (lit "my.pkg.Service")) ∧
      Fields.get? fields "grpc.method" = some (Value.str (lit "DoThing")) :=
  clientLoggerFields_standard_form counterEnv 0 Context.background plainReply none 0 0
    (lit "my.pkg.Service") (lit "DoThing") (by decide) (by decide) (by decide) (by decide)
    (by decide) (by decide)

/-- C7 as stated fails for a reply whose `GetContextId` returns three bytes: the
field `ctx_id` holds sixteen bytes, the three returned and thirteen zeros. -/
theorem clientLoggerFields_ctx_id_counterexample :
    clientLoggerFields counterEnv 0 Context.background (lit "/my.pkg.Service/DoThing")
        shortIdReply none 0 0
      = some [("system", Value.str (lit "grpc")), ("span.kind", Value.str (lit "client")),
          ("grpc.service", Value.str (lit "my.pkg.Service")),
          ("grpc.method", Value.str (lit "DoThing")),
          ("grpc.duration", Value.duration 0), ("grpc.code", Value.str (lit "OK")),
          ("ctx_id", Value.uuid [1, 2, 3, 0, 0, 0, 0, 0, 0, 0, 0, 0, 0, 0, 0, 0])] ∧
      shortIdReply.GetContextId.map (fun getter => getter 0) = some [1, 2, 3] ∧
      Value.uuid [1, 2, 3, 0, 0, 0, 0, 0, 0, 0, 0, 0, 0, 0, 0, 0] ≠ Value.uuid [1, 2, 3] := by
  refine ⟨?_, ?_, ?_⟩ <;> decide

/-- C7, as the code has it: when the reply implements `GetContextId`, which
returns the bytes `b`, the field `ctx_id` is a sixteen-byte identifier made of
the first sixteen bytes of `b`, followed by zeros when `b` is shorter; it is
`b` itself when `b` has sixteen bytes.  When the reply does not implement
`GetContextId`, there is no field `ctx_id`. -/
theorem clientLoggerFields_ctx_id (env : Env σ) (s : σ) (ctx : Context)
    (fullMethodString : GoString) (resp : Reply σ) (err : Option GoError) (code : Code)
    (start : Int) :
    ∃ fields,
      clientLoggerFields env s ctx fullMethodString resp err code start = some fields ∧
      (∀ getter, resp.GetContextId = some getter →
        ∃ u, Fields.get? fields "ctx_id" = some (Value.uuid u) ∧ u.length = 16 ∧
          u = (getter s).take 16 ++ List.replicate (16 - (getter s).length) 0 ∧
          ((getter s).length = 16 → u = getter s)) ∧
      (resp.GetContextId = none → Fields.get? fields "ctx_id" = none) := by
  obtain ⟨dir, fields, _, _, hf, _, _, _, _, _, _, hctx, _⟩ :=
    clientLoggerFields_spec env s ctx fullMethodString resp err code start
  refine ⟨fields, hf, ?_, ?_⟩
  · intro getter hg
    refine ⟨copy (List.replicate 16 0) (getter s), ?_, copy_zero16_length _, copy_zero16 _, ?_⟩
    · rw [hctx, hg]
      rfl
    · intro hl
      rw [copy_zero16, hl, List.take_of_length_le (by omega)]
      simp
  · intro hg
    rw [hctx, hg]
    rfl

/-- C8: the field set of `clientLoggerFields` has the key `logrus.ErrorKey` if and
only if `err` is not `nil`, and then its value is the error itself, not its
message string. -/
theorem clientLoggerFields_error_key (env : Env σ) (s : σ) (ctx : Context)
    (fullMethodString : GoString) (resp : Reply σ) (err : Option GoError) (code : Code)
    (start : Int) :
    ∃ fields,
      clientLoggerFields env s ctx fullMethodString resp err code start = some fields ∧
      ((Fields.get? fields ErrorKey).isSome = true ↔ err ≠ none) ∧
      (∀ e, err = some e →
        Fields.get? fields ErrorKey = some (Value.error e) ∧
        Fields.get? fields ErrorKey ≠ some (Value.str (lit e.Error))) := by
  obtain ⟨dir, fields, _, _, hf, _, _, _, _, _, _, _, herr⟩ :=
    clientLoggerFields_spec env s ctx fullMethodString resp err code start
  refine ⟨fields, hf, ?_, ?_⟩
  · rw [herr]
    cases err <;> simp
  · intro e he
    rw [herr, he]
    exact ⟨rfl, by simp⟩

/-- C9 as stated fails at the trace level of logrus: `levelLogf` returns normally
and no log record has been emitted. -/
theorem levelLogf_trace_counterexample :
    (levelLogf (WithFields counterEnv [("system", Value.str (lit "grpc"))]) TraceLevel
        "finished client unary call" [] startWorld).1 = Outcome.ok () ∧
      logCalls (levelLogf (WithFields counterEnv [("system", Value.str (lit "grpc"))])
        TraceLevel "finished client unary call" [] startWorld).2.trace = [] ∧
      logRecords (levelLogf (WithFields counterEnv [("system", Value.str (lit "grpc"))])
        TraceLevel "finished client unary call" [] startWorld).2.trace = [] :=
  ⟨rfl, rfl, rfl⟩

/-- C9, as the code has it: for every level outside debug, info, warning, error,
fatal and panic, `levelLogf` makes no logging call and returns normally, the
state unchanged: the record is dropped without a sign. -/
theorem levelLogf_other_level (entry : Entry σ) (level : Level) (format : String)
    (args : List Value) (w : World σ) (h1 : level ≠ DebugLevel) (h2 : level ≠ InfoLevel)
    (h3 : level ≠ WarnLevel) (h4 : level ≠ ErrorLevel) (h5 : level ≠ FatalLevel)
    (h6 : level ≠ PanicLevel) :
    levelLogf entry level format args w = (Outcome.ok (), w) := by
  simp only [levelLogf, if_neg h1, if_neg h2, if_neg h3, if_neg h4, if_neg h5, if_neg h6]

theorem levelLogf_other_level_witness :
    levelLogf (WithFields counterEnv []) 7 "finished client unary call" [] startWorld
      = (Outcome.ok (), startWorld) :=
  levelLogf_other_level (WithFields counterEnv []) 7 "finished client unary call" [] startWorld
    (by decide) (by decide) (by decide) (by decide) (by decide) (by decide)

theorem LastIndexByteString_go_none (p : GoString) (h : slash ∉ p) :
    ∀ i, i ≤ p.length → LastIndexByteString.go p slash i = -1 := by
  intro i
  induction i with
  | zero => intro _; rfl
  | succ i ih =>
    intro hi
    have hlt : i < p.length := by omega
    have hne : ¬ (p[i]? = some slash) := by
      rw [List.getElem?_eq_getElem hlt]
      intro he
      exact h (by rw [← Option.some.inj he]; exact List.getElem_mem _)
    simp only [LastIndexByteString.go, if_neg hne]
    exact ih (by omega)

/-- Function `path.Dir` of a string without a slash, the empty string included, is `"."`. -/
theorem Dir_no_slash (p : GoString) (h : slash ∉ p) : Dir p = some [dot] := by
  have h1 : LastIndexByteString p slash = -1 := LastIndexByteString_go_none p h _ (le_refl _)
  simp [Dir, Split, h1, Clean]

/-- C10: `clientLoggerFields` is total.  For every `fullMethod`, `path.Dir` returns
a string that is not empty (it is `"."` for the empty string and for a string
without a slash, and `"/"` for `"/"`), so the slice `[1:]` is in range; the copy
into the sixteen-byte identifier yields sixteen bytes for a source of any
length; and the function returns a field set that has the six keys `system`,
`span.kind`, `grpc.service`, `grpc.method`, `grpc.duration` and `grpc.code`. -/
theorem clientLoggerFields_total (env : Env σ) (s : σ) (ctx : Context)
    (fullMethodString : GoString) (resp : Reply σ) (err : Option GoError) (code : Code)
    (start : Int) :
    (∃ dir, Dir fullMethodString = some dir ∧ dir ≠ [] ∧
      sliceFrom dir 1 = some (dir.drop 1)) ∧
    Dir (lit "") = some (lit ".") ∧
    Dir (lit "/") = some (lit "/") ∧
    (∀ p : GoString, slash ∉ p → Dir p = some (lit ".")) ∧
    (∀ b : GoString, (copy (List.replicate 16 0) b).length = 16) ∧
    ∃ fields,
      clientLoggerFields env s ctx fullMethodString resp err code start = some fields ∧
      (Fields.get? fields "system").isSome = true ∧
      (Fields.get? fields "span.kind").isSome = true ∧
      (Fields.get? fields "grpc.service").isSome = true ∧
      (Fields.get? fields "grpc.method").isSome = true ∧
      (Fields.get? fields "grpc.duration").isSome = true ∧
      (Fields.get? fields "grpc.code").isSome = true := by
  obtain ⟨dir, fields, hd, hne, hf, h1, h2, h3, h4, h5, h6, _⟩ :=
    clientLoggerFields_spec env s ctx fullMethodString resp err code start
  refine ⟨⟨dir, hd, hne, sliceFrom_one hne⟩, by decide, by decide, Dir_no_slash,
    copy_zero16_length, fields, hf, ?_, ?_, ?_, ?_, ?_, ?_⟩
  · rw [h1]; rfl
  · rw [h2]; rfl
  · rw [h3]; rfl
  · rw [h4]; rfl
  · rw [h5]; rfl
  · rw [h6]; rfl

/-! ## Concrete runs -/

theorem UnaryClientCtxIDInterceptor_returns_invoker_error_witness :
    (UnaryClientCtxIDInterceptor counterEnv Context.background (lit "/my.pkg.Service/DoThing")
        (Value.obj 1) plainReply (Value.obj 3) failingInvoker [] startWorld).1
        = Outcome.ok (some (GoError.leaf 2 "connection refused")) ∧
      invokerCalls (UnaryClientCtxIDInterceptor counterEnv Context.background
        (lit "/my.pkg.Service/DoThing") (Value.obj 1) plainReply (Value.obj 3) failingInvoker []
        startWorld).2.trace
        = invokerCalls startWorld.trace ++
          [⟨Context.background, lit "/my.pkg.Service/DoThing", Value.obj 1, plainReply,
            Value.obj 3, []⟩] ∧
      (UnaryClientCtxIDInterceptor counterEnv Context.background (lit "/my.pkg.Service/DoThing")
        (Value.obj 1) plainReply (Value.obj 3) failingInvoker [] startWorld).2.ext = 5 :=
  UnaryClientCtxIDInterceptor_returns_invoker_error counterEnv Context.background
    (lit "/my.pkg.Service/DoThing") (Value.obj 1) plainReply (Value.obj 3) failingInvoker []
    startWorld

/-- A failing call with the logger at info level: one logging call and one
record, at error level, with the error among the fields. -/
theorem UnaryClientCtxIDInterceptor_log_record_witness :
    logCalls (UnaryClientCtxIDInterceptor counterEnv Context.background
        (lit "/my.pkg.Service/DoThing") (Value.obj 1) plainReply (Value.obj 3) failingInvoker []
        startWorld).2.trace
      = [{ level := ErrorLevel,
           data :=
             [("system", Value.str (lit "grpc")), ("span.kind", Value.str (lit "client")),
              ("grpc.service", Value.str (lit "my.pkg.Service")),
              ("grpc.method", Value.str (lit "DoThing")),
              ("grpc.duration", Value.duration 5), ("grpc.code", Value.str (lit "Unknown")),
              ("error", Value.error (GoError.leaf 2 "connection refused"))],
           format := "finished client unary call",
           args := [] }] ∧
    logRecords (UnaryClientCtxIDInterceptor counterEnv Context.background
        (lit "/my.pkg.Service/DoThing") (Value.obj 1) plainReply (Value.obj 3) failingInvoker []
        startWorld).2.trace
      = [{ level := ErrorLevel,
           data :=
             [("system", Value.str (lit "grpc")), ("span.kind", Value.str (lit "client")),
              ("grpc.service", Value.str (lit "my.pkg.Service")),
              ("grpc.method", Value.str (lit "DoThing")),
              ("grpc.duration", Value.duration 5), ("grpc.code", Value.str (lit "Unknown")),
              ("error", Value.error (GoError.leaf 2 "connection refused"))],
           format := "finished client unary call",
           args := [] }] := by
  obtain ⟨fields, hf, hcall, hrec, _⟩ :=
    UnaryClientCtxIDInterceptor_log_record counterEnv Context.background
      (lit "/my.pkg.Service/DoThing") (Value.obj 1) plainReply (Value.obj 3) failingInvoker []
      startWorld
  have hf2 : some fields = some
      [("system", Value.str (lit "grpc")), ("span.kind", Value.str (lit "client")),
       ("grpc.service", Value.str (lit "my.pkg.Service")),
       ("grpc.method", Value.str (lit "DoThing")),
       ("grpc.duration", Value.duration 5), ("grpc.code", Value.str (lit "Unknown")),
       ("error", Value.error (GoError.leaf 2 "connection refused"))] := by
    rw [← hf]
    decide
  rw [hcall, hrec (by decide), Option.some.inj hf2]
  exact ⟨rfl, rfl⟩

theorem clientLoggerFields_ctx_id_witness :
    ∃ fields,
      clientLoggerFields counterEnv 0 Context.background (lit "/my.pkg.Service/DoThing")
        fullIdReply none 0 0 = some fields ∧
      (∀ getter, fullIdReply.GetContextId = some getter →
        ∃ u, Fields.get? fields "ctx_id" = some (Value.uuid u) ∧ u.length = 16 ∧
          u = (getter 0).take 16 ++ List.replicate (16 - (getter 0).length) 0 ∧
          ((getter 0).length = 16 → u = getter 0)) ∧
      (fullIdReply.GetContextId = none → Fields.get? fields "ctx_id" = none) :=
  clientLoggerFields_ctx_id counterEnv 0 Context.background (lit "/my.pkg.Service/DoThing")
    fullIdReply none 0 0

theorem clientLoggerFields_error_key_witness :
    ∃ fields,
      clientLoggerFields counterEnv 5 Context.background (lit "/my.pkg.Service/DoThing")
        plainReply (some (GoError.leaf 2 "connection refused")) 2 0 = some fields ∧
      ((Fields.get? fields ErrorKey).isSome = true ↔
        some (GoError.leaf 2 "connection refused") ≠ none) ∧
      (∀ e, some (GoError.leaf 2 "connection refused") = some e →
        Fields.get? fields ErrorKey = some (Value.error e) ∧
        Fields.get? fields ErrorKey ≠ some (Value.str (lit e.Error))) :=
  clientLoggerFields_error_key counterEnv 5 Context.background (lit "/my.pkg.Service/DoThing")
    plainReply (some (GoError.leaf 2 "connection refused")) 2 0

theorem clientLoggerFields_total_witness :
    (∃ dir, Dir (lit "") = some dir ∧ dir ≠ [] ∧ sliceFrom dir 1 = some (dir.drop 1)) ∧
    Dir (lit "") = some (lit ".") ∧
    Dir (lit "/") = some (lit "/") ∧
    (∀ p : GoString, slash ∉ p → Dir p = some (lit ".")) ∧
    (∀ b : GoString, (copy (List.replicate 16 0) b).length = 16) ∧
    ∃ fields,
      clientLoggerFields counterEnv 0 Context.background (lit "") plainReply none 0 0
        = some fields ∧
      (Fields.get? fields "system").isSome = true ∧
      (Fields.get? fields "span.kind").isSome = true ∧
      (Fields.get? fields "grpc.service").isSome = true ∧
      (Fields.get? fields "grpc.method").isSome = true ∧
      (Fields.get? fields "grpc.duration").isSome = true ∧
      (Fields.get? fields "grpc.code").isSome = true :=
  clientLoggerFields_total counterEnv 0 Context.background (lit "") plainReply none 0 0

/-- The field sets for the empty `fullMethod`, for `"/"` and for a string without
a slash: the service is empty, and the method is `"."`, `"/"` and the string. -/
theorem clientLoggerFields_edge_inputs :
    clientLoggerFields counterEnv 0 Context.background (lit "") plainReply none 0 0
      = some [("system", Value.str (lit "grpc")), ("span.kind", Value.str (lit "client")),
          ("grpc.service", Value.str (lit "")), ("grpc.method", Value.str (lit ".")),
          ("grpc.duration", Value.duration 0), ("grpc.code", Value.str (lit "OK"))] ∧
    clientLoggerFields counterEnv 0 Context.background (lit "/") plainReply none 0 0
      = some [("system", Value.str (lit "grpc")), ("span.kind", Value.str (lit "client")),
          ("grpc.service", Value.str (lit "")), ("grpc.method", Value.str (lit "/")),
          ("grpc.duration", Value.duration 0), ("grpc.code", Value.str (lit "OK"))] ∧
    clientLoggerFields counterEnv 0 Context.background (lit "DoThing") plainReply none 0 0
      = some [("system", Value.str (lit "grpc")), ("span.kind", Value.str (lit "client")),
          ("grpc.service", Value.str (lit "")), ("grpc.method", Value.str (lit "DoThing")),
          ("grpc.duration", Value.duration 0), ("grpc.code", Value.str (lit "OK"))] := by
  refine ⟨?_, ?_, ?_⟩ <;> decide

end Logging
